import Mathlib

set_option maxRecDepth 100000

/-!
# Verification of the incremental build engine of `json-schema-typed`

This file gives a shallow embedding of the build orchestrator in
`.src/build.ts` together with the TypeScript-compilation wrapper
`compileTypeScript` (from `.src/tsc.ts`) and proves properties of the
embedding.

Modelling conventions:

* The checksum ledger (`checksums.json`) is an association list from
  repository-relative path strings to digest strings; JavaScript object
  property read/assignment become `Ledger.lookup` / `Ledger.set`.
* File-system writes performed by the script are collected in a write log
  (a list of `(OutPath, content)` pairs, in program order).  File paths are
  represented by the structured type `OutPath`; `OutPath.filename` recovers
  the repository-relative path string used by the script.
* The external collaborators that are not part of the sources
  (`formatDefinitionDescriptions`, `formatMarkdown`,
  `expandSourcePlaceholders`, the `deno fmt` subprocess and the internals
  of the TypeScript compiler API) are abstracted by an environment `Env`:
  for each draft the environment determines whether the per-draft pipeline
  succeeds and the text its fallible steps produce.  The `deno fmt`
  subprocess result is ignored by the script (its output status is never
  inspected), so it does not appear in the model.
* The top-level script aborts on the first uncaught exception; this is
  modelled by `Except`-style early exit in the draft loop and by the
  `RunResult.err` constructor.
-/

namespace JsonSchemaTyped

/-! ## The checksum ledger (JS object keyed by path strings) -/

/-- The ledger: entries of `checksums.json` in insertion order. -/
abbrev Ledger := List (String × String)

/-- JS property read `checksums[key]` (`none` models `undefined`). -/
def Ledger.lookup : Ledger → String → Option String
  | [], _ => none
  | (k, v) :: rest, key => if key = k then some v else Ledger.lookup rest key

/-- JS property assignment `checksums[key] = v`: replaces the value in place
if the key exists, otherwise appends the new entry. -/
def Ledger.set : Ledger → String → String → Ledger
  | [], key, v => [(key, v)]
  | (k, w) :: rest, key, v =>
    if key = k then (key, v) :: rest else (k, w) :: Ledger.set rest key v

/-- The keys of a ledger, in order. -/
def Ledger.keys (l : Ledger) : List String := l.map Prod.fst

/-! ## `compileTypeScript` (`.src/tsc.ts`) -/

/-- The severity of a TypeScript diagnostic (`ts.DiagnosticCategory`).
`compileTypeScript` never inspects it: warnings are treated like errors. -/
inductive DiagnosticCategory where
  | warning
  | error
  | suggestion
  | message
deriving DecidableEq, Repr

/-- The source-file data of a diagnostic: its file name and the
line/character pair returned by `getLineAndCharacterOfPosition` (both
zero-based, as in the compiler API). -/
structure DiagnosticFile where
  fileName : String
  line : Nat
  character : Nat
deriving DecidableEq, Repr

/-- One `ts.Diagnostic`, after `flattenDiagnosticMessageText`. -/
structure Diagnostic where
  file : Option DiagnosticFile
  category : DiagnosticCategory
  messageText : String
deriving DecidableEq, Repr

/-- The per-diagnostic line built inside `compileTypeScript`:
`` `${fileName} (${line + 1},${character + 1}): ${message}` `` when the
diagnostic has a file, the bare message otherwise. -/
def diagnosticLine (d : Diagnostic) : String :=
  match d.file with
  | some f =>
    f.fileName ++ " (" ++ toString (f.line + 1) ++ "," ++
      toString (f.character + 1) ++ "): " ++ d.messageText
  | none => d.messageText

/-- `compileTypeScript` from `.src/tsc.ts`, as a function of the results the
TypeScript compiler API returns for the program: the pre-emit diagnostics,
the emit diagnostics, and the `emitSkipped` flag.  The body concatenates the
two diagnostic lists, throws an error listing every diagnostic when the
concatenation is non-empty, then throws when emission was skipped, and
otherwise returns normally. -/
def compileTypeScript (preEmit emitDiags : List Diagnostic)
    (emitSkipped : Bool) : Except String Unit :=
  let allDiagnostics := preEmit ++ emitDiags
  if allDiagnostics.length > 0 then
    .error ("TypeScript compilation failed:\n" ++
      String.intercalate "\n" (allDiagnostics.map diagnosticLine))
  else if emitSkipped then
    .error "TypeScript compilation was skipped"
  else
    .ok ()

end JsonSchemaTyped

namespace JsonSchemaTyped

/-! ## Drafts and the run environment -/

/-- The `$copyright` field of a draft definition. -/
structure Copyright where
  year : Int
  credits : List String
deriving DecidableEq, Repr

/-- One discovered draft: `id` is the directory name under `.src/draft/`,
`draftField` the `$draft` field of its definition module, `digest` the MD5
digest `fileChecksum` computes for `definition.ts`. -/
structure DraftInput where
  id : String
  draftField : String
  digest : String
  copyright : Copyright
deriving DecidableEq, Repr

/-- Outcome of the fallible per-draft pipeline steps, which live in
collaborators outside the sources.  `failFormat` covers a throw in
`formatDefinitionDescriptions`/`formatMarkdown` (before any write),
`failExpand` a throw in `expandSourcePlaceholders` (after the JSON
definition write), `failCompile` a throw in `compileTypeScript` (after
both writes), and `success` carries the JSON-definition text and the
expanded module code. -/
inductive DraftOutcome where
  | failFormat
  | failExpand (jsonDef : String)
  | failCompile (jsonDef : String) (modCode : String)
  | success (jsonDef : String) (modCode : String)
deriving DecidableEq, Repr

/-- The external collaborators, fixed for a whole run: the per-draft
pipeline outcome (keyed by draft id) and the `formatMarkdown` call with
default options that the LICENSE text is passed through. -/
structure Env where
  outcome : String → DraftOutcome
  formatMarkdownFull : String → String

/-- The mutable fields of `dist/node/package.json` that the script rewrites,
plus `passthrough`, which stands for all fields the script leaves alone
(name, description, and so on). -/
structure PackageJson where
  passthrough : List (String × String)
  version : String
  main : String
  types : String
  exports : List (String × String × String)
deriving DecidableEq, Repr

/-- The inputs of one invocation of the build script: the discovered drafts
(in discovery order, before the `localeCompare` sort), the parsed prior
`checksums.json`, the `--force` flag, the template files, the prior
`dist/node/package.json`, `VERSION`, and the current year that
`new Date().getFullYear()` returns. -/
structure BuildInput where
  drafts : List DraftInput
  checksums0 : Ledger
  force : Bool
  readmeDenoTemplate : String
  readmeNodeTemplate : String
  licenseTemplate : String
  packageJson0 : PackageJson
  version : String
  year : Int
deriving Repr

/-! ## Output paths -/

/-- The files the script writes, as structured identities. -/
inductive OutPath where
  | specJson (draftId : String)
  | denoModule (draftId : String)
  | checksumsFile
  | draftLatest
  | readmeDeno
  | readmeNode
  | licenseRoot
  | licenseDeno
  | licenseSpecDefs
  | licenseNode
  | packageJsonNode
  | versionTs
deriving DecidableEq, Repr

/-- The repository-relative path string of each `OutPath`, as built with
`path.join` in the script (rendered with forward slashes). -/
def OutPath.filename : OutPath → String
  | .specJson id => "dist/spec_definitions/draft_" ++ id ++ ".json"
  | .denoModule id => "dist/deno/draft_" ++ id ++ ".ts"
  | .checksumsFile => ".src/checksums.json"
  | .draftLatest => "dist/deno/draft_latest.ts"
  | .readmeDeno => "dist/deno/README.md"
  | .readmeNode => "dist/node/README.md"
  | .licenseRoot => "LICENSE.md"
  | .licenseDeno => "dist/deno/LICENSE.md"
  | .licenseSpecDefs => "dist/spec_definitions/LICENSE.md"
  | .licenseNode => "dist/node/LICENSE.md"
  | .packageJsonNode => "dist/node/package.json"
  | .versionTs => "dist/deno/version.ts"

/-- The ledger key of a draft:
`path.relative(CWD, draftDefFilename).split(path.sep).join("/")`. -/
def draftKey (id : String) : String := ".src/draft/" ++ id ++ "/definition.ts"

/-! ## "Latest" draft selection -/

/-- The white-space characters `parseInt` skips before parsing. -/
def jsWhitespace (c : Char) : Bool :=
  c = ' ' ∨ c = '\t' ∨ c = '\n' ∨ c = '\r'

/-- Value of a list of decimal digit characters. -/
def digitsVal (ds : List Char) : Int :=
  ds.foldl (fun n c => 10 * n + ((c.toNat : Int) - ('0'.toNat : Int))) 0

/-- JavaScript `parseInt(s, 10)`: skip leading whitespace, take an optional
sign, then the longest run of decimal digits; `none` models `NaN` (no digit
found).  A non-`NaN` result is always integral, so
`Number.isInteger(parseInt(s, 10))` is `(jsParseInt10 s).isSome`. -/
def jsParseInt10 (s : String) : Option Int :=
  let t := s.data.dropWhile jsWhitespace
  let signAndRest : Int × List Char :=
    match t with
    | '-' :: r => (-1, r)
    | '+' :: r => (1, r)
    | r => (1, r)
  let ds := signAndRest.2.takeWhile Char.isDigit
  if ds.isEmpty then none else some (signAndRest.1 * digitsVal ds)

/-- `draftId.split("-")[0]`: the part of the identifier before the first
dash (the whole identifier if it has no dash). -/
def splitHeadDash (s : String) : String :=
  String.mk (s.data.takeWhile (fun c => ¬c = '-'))

/-- The filter in the `latestDraft` computation:
`Number.isInteger(parseInt(draftId.split("-")[0], 10))`. -/
def hasNumericPrefix (id : String) : Bool :=
  (jsParseInt10 (splitHeadDash id)).isSome

/-- The numeric-prefix value of an identifier (the `parseInt` result),
when it has one. -/
def numericPrefixValue (id : String) : Option Int :=
  jsParseInt10 (splitHeadDash id)

/-- `[...drafts].filter(..).pop()`: the last element, in the already-sorted
order of `drafts`, among identifiers with a numeric prefix. -/
def latestDraft (ids : List String) : Option String :=
  (ids.filter hasNumericPrefix).getLast?

/-! ## Sorting -/

/-- Lexicographic comparison of character lists by code point, the model
of `localeCompare` ordering for the ASCII identifiers and paths of this
repository. -/
def charListLe : List Char → List Char → Bool
  | [], _ => true
  | _ :: _, [] => false
  | a :: as, b :: bs =>
    if a.toNat = b.toNat then charListLe as bs
    else decide (a.toNat < b.toNat)

/-- `a.localeCompare(b) <= 0`, modelled on code points. -/
def stringLe (a b : String) : Bool := charListLe a.data b.data

theorem charListLe_refl : ∀ x, charListLe x x = true := by
  intro x
  induction x with
  | nil => rfl
  | cons a as ih => simp [charListLe, ih]

theorem charListLe_total : ∀ x y, charListLe x y = true ∨ charListLe y x = true := by
  intro x
  induction x with
  | nil => intro y; exact Or.inl rfl
  | cons a as ih =>
    intro y
    cases y with
    | nil => exact Or.inr rfl
    | cons b bs =>
      by_cases hab : a.toNat = b.toNat
      · rcases ih bs with h2 | h2
        · exact Or.inl (by simp [charListLe, hab, h2])
        · exact Or.inr (by simp [charListLe, hab.symm, h2])
      · rcases Nat.lt_or_ge a.toNat b.toNat with h2 | h2
        · exact Or.inl (by simp [charListLe, hab, h2])
        · have h3 : b.toNat < a.toNat := lt_of_le_of_ne h2 (fun he => hab he.symm)
          have h4 : ¬b.toNat = a.toNat := fun he => hab he.symm
          exact Or.inr (by simp [charListLe, h4, h3])

theorem charListLe_trans :
    ∀ x y z, charListLe x y = true → charListLe y z = true → charListLe x z = true := by
  intro x
  induction x with
  | nil => intro y z _ _; rfl
  | cons a as ih =>
    intro y z h1 h2
    cases y with
    | nil => simp [charListLe] at h1
    | cons b bs =>
      cases z with
      | nil => simp [charListLe] at h2
      | cons c cs =>
        simp only [charListLe] at h1 h2 ⊢
        by_cases hab : a.toNat = b.toNat
        · rw [if_pos hab] at h1
          by_cases hbc : b.toNat = c.toNat
          · rw [if_pos hbc] at h2
            rw [if_pos (hab.trans hbc)]
            exact ih bs cs h1 h2
          · rw [if_neg hbc] at h2
            have hlt : b.toNat < c.toNat := of_decide_eq_true h2
            have hac : ¬a.toNat = c.toNat := by omega
            rw [if_neg hac]
            exact decide_eq_true (by omega)
        · rw [if_neg hab] at h1
          have h1l : a.toNat < b.toNat := of_decide_eq_true h1
          by_cases hbc : b.toNat = c.toNat
          · have hac : ¬a.toNat = c.toNat := by omega
            rw [if_neg hac]
            exact decide_eq_true (by omega)
          · rw [if_neg hbc] at h2
            have h2l : b.toNat < c.toNat := of_decide_eq_true h2
            have hac : ¬a.toNat = c.toNat := by omega
            rw [if_neg hac]
            exact decide_eq_true (by omega)

theorem stringLe_refl (a : String) : stringLe a a = true := charListLe_refl a.data

theorem stringLe_total (a b : String) : stringLe a b = true ∨ stringLe b a = true :=
  charListLe_total a.data b.data

theorem stringLe_trans {a b c : String} (h1 : stringLe a b = true)
    (h2 : stringLe b c = true) : stringLe a c = true :=
  charListLe_trans a.data b.data c.data h1 h2

/-- The `localeCompare` comparison on draft entries, as the script sorts
`drafts` (ascending on the identifier string). -/
def draftLe (a b : DraftInput) : Prop := stringLe a.id b.id = true

instance : DecidableRel draftLe := fun a b =>
  inferInstanceAs (Decidable (stringLe a.id b.id = true))

instance : IsTotal DraftInput draftLe := ⟨fun a b => stringLe_total a.id b.id⟩

instance : IsTrans DraftInput draftLe := ⟨fun _ _ _ h1 h2 => stringLe_trans h1 h2⟩

/-- `drafts.sort((a, b) => a.localeCompare(b))`. -/
def sortDrafts (l : List DraftInput) : List DraftInput :=
  List.insertionSort draftLe l

/-- The key comparison used to sort `Object.entries(checksums)` before
serializing `checksums.json`. -/
def entryLe (a b : String × String) : Prop := stringLe a.1 b.1 = true

instance : DecidableRel entryLe := fun a b =>
  inferInstanceAs (Decidable (stringLe a.1 b.1 = true))

instance : IsTotal (String × String) entryLe := ⟨fun a b => stringLe_total a.1 b.1⟩

instance : IsTrans (String × String) entryLe := ⟨fun _ _ _ h1 h2 => stringLe_trans h1 h2⟩

/-- `Object.entries(checksums).sort(([aKey], [bKey]) => aKey.localeCompare(bKey))`. -/
def sortLedger (l : Ledger) : Ledger := List.insertionSort entryLe l

/-- `JSON.stringify(map, undefined, 2)` for a flat string-to-string object
(no escaping is needed for path keys and hex digests). -/
def serializeLedger (l : Ledger) : String :=
  match l with
  | [] => "\x7b\x7d"
  | _ =>
    "\x7b\n" ++
      String.intercalate ",\n"
        (l.map (fun e => "  \"" ++ e.1 ++ "\": \"" ++ e.2 ++ "\"")) ++
      "\n\x7d"

/-! ## LICENSE copyright block -/

/-- The comparator of `licenseCopyrights.sort`: ascending year
(`a.year - b.year`), ties broken by `a.draft.localeCompare(b.draft)`. -/
def copyrightLe (a b : String × Copyright) : Prop :=
  a.2.year < b.2.year ∨ (a.2.year = b.2.year ∧ stringLe a.1 b.1 = true)

instance : DecidableRel copyrightLe := fun a b =>
  inferInstanceAs
    (Decidable (a.2.year < b.2.year ∨ (a.2.year = b.2.year ∧ stringLe a.1 b.1 = true)))

instance : IsTotal (String × Copyright) copyrightLe := by
  constructor
  intro a b
  rcases lt_trichotomy a.2.year b.2.year with h | h | h
  · exact Or.inl (Or.inl h)
  · rcases stringLe_total a.1 b.1 with h2 | h2
    · exact Or.inl (Or.inr ⟨h, h2⟩)
    · exact Or.inr (Or.inr ⟨h.symm, h2⟩)
  · exact Or.inr (Or.inl h)

instance : IsTrans (String × Copyright) copyrightLe := by
  constructor
  intro a b c h1 h2
  rcases h1 with h1 | ⟨h1e, h1s⟩
  · rcases h2 with h2 | ⟨h2e, _⟩
    · exact Or.inl (lt_trans h1 h2)
    · exact Or.inl (h2e ▸ h1)
  · rcases h2 with h2 | ⟨h2e, h2s⟩
    · exact Or.inl (h1e ▸ h2)
    · exact Or.inr ⟨h1e.trans h2e, stringLe_trans h1s h2s⟩

/-- `licenseCopyrights.sort(...)`. -/
def sortCopyrights (l : List (String × Copyright)) : List (String × Copyright) :=
  List.insertionSort copyrightLe l

/-- One rendered copyright line:
`` `${year} [draft-${draft}] ${initialCredits.join(", ")}, and ${lastCredit}.` ``
with `initialCredits = credits.slice(0, -1)` and
`lastCredit = credits.slice(-1)` (a singleton array, which string-interpolates
to its element). -/
def renderCopyright (draft : String) (c : Copyright) : String :=
  toString c.year ++ " [draft-" ++ draft ++ "] " ++
    String.intercalate ", " c.credits.dropLast ++ ", and " ++
    String.intercalate "," (c.credits.drop (c.credits.length - 1)) ++ "."

/-- The string substituted for `{COPYRIGHT}`: the sorted rendered lines
joined by `"\n\n"`. -/
def copyrightBlock (l : List (String × Copyright)) : String :=
  String.intercalate "\n\n"
    ((sortCopyrights l).map (fun p => renderCopyright p.1 p.2))

/-! ## String templating -/

/-- When `s` starts with the pattern, the remainder of `s` after it. -/
def afterPattern : List Char → List Char → Option (List Char)
  | s, [] => some s
  | [], _ :: _ => none
  | c :: s, p :: ps => if c = p then afterPattern s ps else none

/-- Replace the first occurrence of `p :: ps` in the text by `rep`. -/
def replaceFirstAux (p : Char) (ps rep : List Char) : List Char → List Char
  | [] => []
  | c :: s =>
    if c = p then
      match afterPattern s ps with
      | some rest => rep ++ rest
      | none => c :: replaceFirstAux p ps rep s
    else c :: replaceFirstAux p ps rep s

/-- JavaScript `s.replace(pat, rep)` with a string pattern: replaces only
the first occurrence (the replacement strings of the script contain no `$`
patterns, so literal substitution is faithful). -/
def replaceFirst (s pat rep : String) : String :=
  match pat.data with
  | [] => s
  | p :: ps => String.mk (replaceFirstAux p ps rep.data s.data)

/-- Replace every occurrence of `p :: ps`, left to right without overlap;
the fuel argument (instantiated with the text length) makes the recursion
structural. -/
def replaceAllAux (p : Char) (ps rep : List Char) : Nat → List Char → List Char
  | _, [] => []
  | 0, s => s
  | fuel + 1, c :: s =>
    if c = p then
      match afterPattern s ps with
      | some rest => rep ++ replaceAllAux p ps rep fuel rest
      | none => c :: replaceAllAux p ps rep fuel s
    else c :: replaceAllAux p ps rep fuel s

/-- JavaScript `s.replaceAll(pat, rep)` for a non-empty literal pattern. -/
def stringReplaceAll (s pat rep : String) : String :=
  match pat.data with
  | [] => s
  | p :: ps => String.mk (replaceAllAux p ps rep.data s.data.length s.data)

/-- The LICENSE template after the `{YEAR}` and `{COPYRIGHT}`
substitutions (both use single-occurrence `replace`). -/
def substituteLicense (template : String) (year : Int) (block : String) : String :=
  replaceFirst (replaceFirst template "{YEAR}" (toString year)) "{COPYRIGHT}" block

/-- `id.replaceAll("_", "-")`. -/
def dashed (s : String) : String := stringReplaceAll s "_" "-"

/-- Grouping step of `Number.prototype.toLocaleString("en")`: the input is
the reversed digit list; a comma is inserted after every three digits (the
fuel argument, instantiated with the digit count, makes the recursion
structural). -/
def commaGroup : Nat → List Char → List Char
  | _, [] => []
  | 0, ds => ds
  | fuel + 1, ds =>
    if ds.length ≤ 3 then ds
    else ds.take 3 ++ ',' :: commaGroup fuel (ds.drop 3)

/-- `n.toLocaleString("en")` for a non-negative count: decimal digits with
`,` thousands separators. -/
def toLocaleStringEn (n : Nat) : String :=
  String.mk (commaGroup (toString n).data.length ((toString n).data.reverse)).reverse

/-- The README template expansion of the script, in source order:
`{DRAFT_TOTAL}` and `{NODE_LATEST_DRAFT}` via `replaceAll`,
`{NODE_DRAFT_LIST}` and `{DENO_DRAFT_LIST}` via single-occurrence `replace`
with a function replacement, then `{LATEST_DRAFT}` via `replaceAll`. -/
def readmeContent (template : String) (ids : List String) (latest : String) : String :=
  let s := stringReplaceAll template "{DRAFT_TOTAL}" (toLocaleStringEn ids.length)
  let s := stringReplaceAll s "{NODE_LATEST_DRAFT}" (dashed latest)
  let s := replaceFirst s "{NODE_DRAFT_LIST}"
    (String.intercalate "\n- " (ids.map (fun d => "`draft-" ++ dashed d ++ "`")))
  let s := replaceFirst s "{DENO_DRAFT_LIST}"
    (String.intercalate "\n   - " (ids.map (fun d => "`draft_" ++ d ++ ".ts`")))
  stringReplaceAll s "{LATEST_DRAFT}" latest

/-! ## package.json update -/

/-- The package.json mutation block: sets `version`, `main`, `types` and
rebuilds `exports` with the `"."` entry for the latest draft followed by one
entry per draft. -/
def updatePackageJson (p : PackageJson) (version latest : String)
    (ids : List String) : PackageJson :=
  { p with
    version := version
    main := "./draft_" ++ latest ++ ".js"
    types := "./draft_" ++ latest ++ ".d.ts"
    exports :=
      (".", "./draft_" ++ latest ++ ".d.ts", "./draft_" ++ latest ++ ".js") ::
        ids.map (fun id =>
          ("./draft-" ++ dashed id, "./draft_" ++ id ++ ".d.ts",
            "./draft_" ++ id ++ ".js")) }

/-- One serialized `exports` entry. -/
def serializeExportEntry (e : String × String × String) : String :=
  "    \"" ++ e.1 ++ "\": \x7b \"types\": \"" ++ e.2.1 ++
    "\", \"default\": \"" ++ e.2.2 ++ "\" \x7d"

/-- One serialized passthrough field. -/
def serializePassthrough (e : String × String) : String :=
  "  \"" ++ e.1 ++ "\": \"" ++ e.2 ++ "\","

/-- `JSON.stringify(packageJson, undefined, 2) + "\n"`, specialised to the
modelled fields (a fixed deterministic rendering standing for the
JavaScript serialization). -/
def serializePackageJson (p : PackageJson) : String :=
  "\x7b\n" ++
    String.intercalate "\n" (p.passthrough.map serializePassthrough) ++
    "\n  \"version\": \"" ++ p.version ++
    "\",\n  \"main\": \"" ++ p.main ++
    "\",\n  \"types\": \"" ++ p.types ++
    "\",\n  \"exports\": \x7b\n" ++
    String.intercalate ",\n" (p.exports.map serializeExportEntry) ++
    "\n  \x7d\n\x7d\n"

/-! ## Generated module contents -/

/-- The fixed two-line generated-file marker, followed by the blank line
the `join("\n")` of the script produces before the module code. -/
def bannerText : String :=
  "// @generated\n// This code is automatically generated. Manual editing is not recommended.\n\n"

/-- The content written to `dist/deno/draft_<id>.ts`:
`["// @generated", "// This code is ...", "", modCode].join("\n")`. -/
def modFileContent (modCode : String) : String :=
  String.intercalate "\n"
    ["// @generated",
      "// This code is automatically generated. Manual editing is not recommended.",
      "", modCode]

/-- The content of `dist/deno/draft_latest.ts`:
`` `export * from "./draft_${latestDraft}.ts";` ``. -/
def latestAliasContent (latest : String) : String :=
  "export * from \"./draft_" ++ latest ++ ".ts\";"

/-- The content of `dist/deno/version.ts`:
`` `export const VERSION = "${VERSION}";` ``. -/
def versionFileContent (v : String) : String :=
  "export const VERSION = \"" ++ v ++ "\";"

/-! ## The run -/

/-- The evolving state of a run: the in-memory `checksums` object, the
`licenseCopyrights` accumulator, the skip/complete log lines, and the file
writes in program order. -/
structure RunState where
  checksums : Ledger
  copyrights : List (String × Copyright)
  skipped : List String
  processed : List String
  writes : List (OutPath × String)
deriving DecidableEq, Repr

/-- The two ways the script aborts with a non-zero exit: an uncaught throw
while processing a draft, and the `throw new Error("TODO")` when no draft
has a numeric identifier prefix. -/
inductive RunError where
  | draftFailure (id : String)
  | noLatestDraft
deriving DecidableEq, Repr

/-- The observable result of a run. -/
inductive RunResult where
  | ok (st : RunState)
  | err (e : RunError) (st : RunState)
deriving DecidableEq, Repr

/-- The state at the moment the run ended (normally or by abort). -/
def RunResult.state : RunResult → RunState
  | .ok st => st
  | .err _ st => st

/-- Whether the run exited with status zero. -/
def RunResult.isOk : RunResult → Bool
  | .ok _ => true
  | .err _ _ => false

/-- Append one file write. -/
def addWrite (st : RunState) (p : OutPath) (c : String) : RunState :=
  { st with writes := st.writes ++ [(p, c)] }

/-- Whether the per-draft pipeline ran to completion. -/
def DraftOutcome.isOk : DraftOutcome → Bool
  | .success _ _ => true
  | _ => false

/-- The files the pipeline steps wrote before finishing or throwing: the
JSON definition (written before `expandSourcePlaceholders` runs) and the
banner-prefixed module (written before `compileTypeScript` runs). -/
def pipelineWrites (d : DraftInput) : DraftOutcome → List (OutPath × String)
  | .failFormat => []
  | .failExpand j => [(.specJson d.id, j)]
  | .failCompile j m => [(.specJson d.id, j), (.denoModule d.id, modFileContent m)]
  | .success j m => [(.specJson d.id, j), (.denoModule d.id, modFileContent m)]

/-- The skip condition of the loop body:
`draftDefChecksum === checksums[rel] && FORCE_REFRESH === false`
(property reads on a JS object give `undefined`, which a digest string is
never strictly equal to, hence the `some`). -/
def skipCond (force : Bool) (st : RunState) (d : DraftInput) : Prop :=
  Ledger.lookup st.checksums (draftKey d.id) = some d.digest ∧ force = false

instance : ∀ force st d, Decidable (skipCond force st d) := fun _ _ _ =>
  inferInstanceAs (Decidable (_ ∧ _))

/-- One iteration of the draft loop.  In source order: push the copyright
entry, test the skip condition
(`draftDefChecksum === checksums[rel] && FORCE_REFRESH === false`),
and otherwise update the in-memory checksum entry and run the pipeline.
An `.error` result is the uncaught throw that aborts the whole script,
carrying the state at that moment and the failing draft's identifier. -/
def processDraft (env : Env) (force : Bool) (st : RunState) (d : DraftInput) :
    Except (RunState × String) RunState :=
  if skipCond force st d then
    .ok { st with copyrights := st.copyrights ++ [(d.draftField, d.copyright)],
                  skipped := st.skipped ++ [d.id] }
  else
    let o := env.outcome d.id
    let st2 : RunState :=
      { st with copyrights := st.copyrights ++ [(d.draftField, d.copyright)],
                checksums := Ledger.set st.checksums (draftKey d.id) d.digest,
                writes := st.writes ++ pipelineWrites d o }
    if o.isOk then .ok { st2 with processed := st2.processed ++ [d.id] }
    else .error (st2, d.id)

/-- The `for (const draftId of drafts)` loop, aborting at the first
uncaught throw. -/
def processDrafts (env : Env) (force : Bool) :
    RunState → List DraftInput → Except (RunState × String) RunState
  | st, [] => .ok st
  | st, d :: ds =>
    match processDraft env force st d with
    | .ok st1 => processDrafts env force st1 ds
    | .error e => .error e

/-- Everything written after the `latestDraft === undefined` check: the
latest alias, the two READMEs, the LICENSE and its three copies, the node
package.json, and the deno version.ts, in source order. -/
def finalWrites (env : Env) (I : BuildInput) (ids : List String)
    (latest : String) (cps : List (String × Copyright)) : List (OutPath × String) :=
  let licenseText :=
    env.formatMarkdownFull (substituteLicense I.licenseTemplate I.year (copyrightBlock cps))
  [(OutPath.draftLatest, latestAliasContent latest),
    (OutPath.readmeDeno, readmeContent I.readmeDenoTemplate ids latest),
    (OutPath.readmeNode, readmeContent I.readmeNodeTemplate ids latest),
    (OutPath.licenseRoot, licenseText),
    (OutPath.licenseDeno, licenseText),
    (OutPath.licenseSpecDefs, licenseText),
    (OutPath.licenseNode, licenseText),
    (OutPath.packageJsonNode,
      serializePackageJson (updatePackageJson I.packageJson0 I.version latest ids)),
    (OutPath.versionTs, versionFileContent I.version)]

/-- The initial run state: the parsed prior ledger and empty accumulators. -/
def initState (I : BuildInput) : RunState :=
  { checksums := I.checksums0, copyrights := [], skipped := [], processed := [], writes := [] }

/-- The whole build script: sort the discovered drafts, run the draft loop,
rewrite `checksums.json` from the in-memory object sorted by key, compute
the latest draft (aborting when none qualifies), then write the remaining
artifacts. -/
def runBuild (env : Env) (I : BuildInput) : RunResult :=
  match processDrafts env I.force (initState I) (sortDrafts I.drafts) with
  | .error (st, id) => .err (.draftFailure id) st
  | .ok st =>
    let st1 := addWrite st .checksumsFile (serializeLedger (sortLedger st.checksums))
    match latestDraft ((sortDrafts I.drafts).map DraftInput.id) with
    | none => .err .noLatestDraft st1
    | some latest =>
      .ok { st1 with
              writes := st1.writes ++
                finalWrites env I ((sortDrafts I.drafts).map DraftInput.id) latest st.copyrights }

/-- The content the run wrote to a path (first write, for paths written at
most once). -/
def writeContent (st : RunState) (p : OutPath) : Option String :=
  (st.writes.find? (fun e => e.1 == p)).map Prod.snd

/-- The state reached by the draft loop, whether it finished or aborted. -/
def resState : Except (RunState × String) RunState → RunState
  | .ok st => st
  | .error (st, _) => st

/-- State after skipping a draft. -/
def skipState (st : RunState) (d : DraftInput) : RunState :=
  { st with copyrights := st.copyrights ++ [(d.draftField, d.copyright)],
            skipped := st.skipped ++ [d.id] }

/-- State after a draft's pipeline ran (the ledger entry updated, the
pipeline's files written), short of the `processed` log line. -/
def stepErrState (env : Env) (st : RunState) (d : DraftInput) : RunState :=
  { st with copyrights := st.copyrights ++ [(d.draftField, d.copyright)],
            checksums := Ledger.set st.checksums (draftKey d.id) d.digest,
            writes := st.writes ++ pipelineWrites d (env.outcome d.id) }

/-- State after a draft's pipeline completed. -/
def stepOkState (env : Env) (st : RunState) (d : DraftInput) : RunState :=
  { stepErrState env st d with processed := st.processed ++ [d.id] }

/-- The final state of a run that completed: the loop state plus the
`checksums.json` write and the post-loop writes. -/
def okFinalState (env : Env) (I : BuildInput) (stL : RunState) (latest : String) : RunState :=
  { addWrite stL .checksumsFile (serializeLedger (sortLedger stL.checksums)) with
      writes := (addWrite stL .checksumsFile (serializeLedger (sortLedger stL.checksums))).writes ++
        finalWrites env I ((sortDrafts I.drafts).map DraftInput.id) latest stL.copyrights }

/-- The final state of a run aborted by the missing-latest-draft error:
`checksums.json` was already rewritten, nothing later was. -/
def noLatestState (stL : RunState) : RunState :=
  addWrite stL .checksumsFile (serializeLedger (sortLedger stL.checksums))

/-- The error the run exited with, when it aborted. -/
def RunResult.runError : RunResult → Option RunError
  | .ok _ => none
  | .err e _ => some e

/-- The latest-draft identifier a run of `I` selects (defaulting to the
empty string when no draft qualifies). -/
def runLatest (I : BuildInput) : String :=
  (latestDraft ((sortDrafts I.drafts).map DraftInput.id)).getD ""

/-- Being prefixed with the fixed two-line generated-file marker. -/
def startsWithBanner (s : String) : Prop := ∃ rest, s = bannerText ++ rest

/-! ## Concrete runs used to exercise the theorems -/

/-- A draft whose `$draft` field equals its directory name. -/
def mkDraft (id digest : String) (year : Int) : DraftInput :=
  { id := id, draftField := id, digest := digest,
    copyright := { year := year, credits := ["Ada", "Grace"] } }

/-- A prior package.json value. -/
def pkg0 : PackageJson :=
  { passthrough := [("name", "json-schema-typed")], version := "0.0.0",
    main := "m", types := "t", exports := [] }

/-- An environment in which every draft's pipeline succeeds. -/
def okEnv : Env :=
  { outcome := fun _ => .success "J" "M", formatMarkdownFull := fun s => s }

/-- An environment in which draft `a` fails at the format step. -/
def failAEnv : Env :=
  { outcome := fun i => if i = "a" then .failFormat else .success "J" "M",
    formatMarkdownFull := fun s => s }

/-- An environment in which draft `b` fails at the compile step. -/
def failBEnv : Env :=
  { outcome := fun i => if i = "b" then .failCompile "J" "M" else .success "J" "M",
    formatMarkdownFull := fun s => s }

/-- Run input: `a` matches its ledger entry, `b` has none and will fail. -/
def inC1 : BuildInput :=
  { drafts := [mkDraft "a" "ha" 2020, mkDraft "b" "hb" 2021],
    checksums0 := [(draftKey "a", "ha"), ("unrelated/path.ts", "00ff")],
    force := false,
    readmeDenoTemplate := "D {DRAFT_TOTAL}", readmeNodeTemplate := "N {LATEST_DRAFT}",
    licenseTemplate := "L {YEAR}\n\n{COPYRIGHT}",
    packageJson0 := pkg0, version := "1.0.0", year := 2024 }

/-- Run input: draft `04` matches its ledger entry, draft `07` differs;
everything succeeds. -/
def inC2 : BuildInput :=
  { drafts := [mkDraft "04" "h4" 2020, mkDraft "07" "h7" 2021],
    checksums0 := [(draftKey "04", "h4"), (draftKey "07", "old")],
    force := false,
    readmeDenoTemplate := "D", readmeNodeTemplate := "N",
    licenseTemplate := "L {YEAR}\n\n{COPYRIGHT}",
    packageJson0 := pkg0, version := "1.0.0", year := 2024 }

/-- Run input: neither draft recorded; `a` sorts first and fails. -/
def inC3 : BuildInput :=
  { drafts := [mkDraft "b" "hb" 2021, mkDraft "a" "ha" 2020],
    checksums0 := [],
    force := false,
    readmeDenoTemplate := "D", readmeNodeTemplate := "N",
    licenseTemplate := "L {YEAR}\n\n{COPYRIGHT}",
    packageJson0 := pkg0, version := "1.0.0", year := 2024 }

/-- Run input with identifiers `10` and `9`: numerically 10 > 9 but the
lexicographic sort puts `"9"` last. -/
def inC4 : BuildInput :=
  { drafts := [mkDraft "10" "h10" 2020, mkDraft "9" "h9" 2019],
    checksums0 := [],
    force := false,
    readmeDenoTemplate := "D", readmeNodeTemplate := "N",
    licenseTemplate := "L {YEAR}\n\n{COPYRIGHT}",
    packageJson0 := pkg0, version := "1.0.0", year := 2024 }

/-- Run input whose single draft already matches its ledger entry, in the
year 2024. -/
def inC5a : BuildInput :=
  { drafts := [mkDraft "7" "h7" 2019],
    checksums0 := [(draftKey "7", "h7")],
    force := false,
    readmeDenoTemplate := "D", readmeNodeTemplate := "N",
    licenseTemplate := "L {YEAR}\n\n{COPYRIGHT}",
    packageJson0 := pkg0, version := "1.0.0", year := 2024 }

/-- The same run input one year later. -/
def inC5b : BuildInput := { inC5a with year := 2025 }

/-- Run input whose single draft is not yet recorded (the first run of the
idempotence pair). -/
def inC5w : BuildInput := { inC5a with checksums0 := [("unrelated/path.ts", "00ff")] }

/-- The follow-up run of the idempotence pair: the ledger and package.json
are the files the first run wrote. -/
def inC5w2 : BuildInput :=
  { inC5w with
      checksums0 := sortLedger (runBuild okEnv inC5w).state.checksums,
      packageJson0 := updatePackageJson inC5w.packageJson0 inC5w.version
        (runLatest inC5w) ((sortDrafts inC5w.drafts).map DraftInput.id) }

/-- Run input with an unrelated ledger entry and one unrecorded draft. -/
def inC6 : BuildInput :=
  { drafts := [mkDraft "7" "h7" 2019],
    checksums0 := [("zzz/unrelated.ts", "beef")],
    force := false,
    readmeDenoTemplate := "D", readmeNodeTemplate := "N",
    licenseTemplate := "L {YEAR}\n\n{COPYRIGHT}",
    packageJson0 := pkg0, version := "1.0.0", year := 2024 }

/-- Run input whose only draft has a non-numeric identifier prefix. -/
def inC7 : BuildInput :=
  { drafts := [mkDraft "draftX" "hX" 2019],
    checksums0 := [],
    force := false,
    readmeDenoTemplate := "D", readmeNodeTemplate := "N",
    licenseTemplate := "L {YEAR}\n\n{COPYRIGHT}",
    packageJson0 := pkg0, version := "1.0.0", year := 2024 }

/-- Run input with one processed draft `7`, so that `draft_7.ts`,
`draft_latest.ts` and `version.ts` are all written. -/
def inC8 : BuildInput :=
  { drafts := [mkDraft "7" "h7" 2019],
    checksums0 := [],
    force := false,
    readmeDenoTemplate := "D", readmeNodeTemplate := "N",
    licenseTemplate := "L {YEAR}\n\n{COPYRIGHT}",
    packageJson0 := pkg0, version := "1.0.0", year := 2024 }

/-- A warning-category diagnostic carrying a file position. -/
def diagW : Diagnostic :=
  { file := some { fileName := "foo.ts", line := 1, character := 4 },
    category := .warning, messageText := "boom" }

/-- Run input with one skipped draft (2018) and one processed draft
(2019), to exercise the LICENSE block. -/
def inC10 : BuildInput :=
  { drafts := [mkDraft "2019-09" "h1" 2019, mkDraft "07" "h2" 2018],
    checksums0 := [(draftKey "07", "h2")],
    force := false,
    readmeDenoTemplate := "D", readmeNodeTemplate := "N",
    licenseTemplate := "L {YEAR}\n\n{COPYRIGHT}",
    packageJson0 := pkg0, version := "1.0.0", year := 2024 }

end JsonSchemaTyped

namespace JsonSchemaTyped

/-! ## Ledger lemmas -/

@[simp] theorem Ledger.lookup_nil (k : String) : Ledger.lookup [] k = none := rfl

@[simp] theorem Ledger.lookup_cons (e : String × String) (l : Ledger) (k : String) :
    Ledger.lookup (e :: l) k = if k = e.1 then some e.2 else Ledger.lookup l k := rfl

@[simp] theorem Ledger.set_nil (k v : String) : Ledger.set [] k v = [(k, v)] := rfl

@[simp] theorem Ledger.set_cons (e : String × String) (l : Ledger) (k v : String) :
    Ledger.set (e :: l) k v =
      if k = e.1 then (k, v) :: l else e :: Ledger.set l k v := rfl

@[simp] theorem Ledger.keys_nil : Ledger.keys [] = [] := rfl

@[simp] theorem Ledger.keys_cons (e : String × String) (l : Ledger) :
    Ledger.keys (e :: l) = e.1 :: Ledger.keys l := rfl

theorem Ledger.lookup_set_self (l : Ledger) (k v : String) :
    Ledger.lookup (Ledger.set l k v) k = some v := by
  induction l with
  | nil => simp
  | cons e rest ih =>
    by_cases h : k = e.1 <;> simp [h, ih]

theorem Ledger.lookup_set_ne (l : Ledger) {k k' : String} (v : String) (h : k' ≠ k) :
    Ledger.lookup (Ledger.set l k v) k' = Ledger.lookup l k' := by
  induction l with
  | nil => simp [h]
  | cons e rest ih =>
    by_cases he : k = e.1
    · subst he
      simp [h]
    · by_cases he' : k' = e.1 <;> simp [he, he', ih]

theorem Ledger.mem_keys_set (l : Ledger) (k v x : String) :
    x ∈ Ledger.keys (Ledger.set l k v) ↔ x ∈ Ledger.keys l ∨ x = k := by
  induction l with
  | nil => simp [eq_comm]
  | cons e rest ih =>
    by_cases h : k = e.1
    · subst h
      rw [Ledger.set_cons, if_pos rfl]
      simp only [Ledger.keys_cons, List.mem_cons]
      tauto
    · simp only [Ledger.set_cons, if_neg h, Ledger.keys_cons, List.mem_cons, ih]
      tauto

theorem Ledger.keys_subset_set (l : Ledger) (k v : String) :
    ∀ x ∈ Ledger.keys l, x ∈ Ledger.keys (Ledger.set l k v) := by
  intro x hx
  exact (Ledger.mem_keys_set l k v x).mpr (Or.inl hx)

theorem Ledger.lookup_eq_none_iff (l : Ledger) (k : String) :
    Ledger.lookup l k = none ↔ k ∉ Ledger.keys l := by
  induction l with
  | nil => simp
  | cons e rest ih =>
    by_cases h : k = e.1 <;> simp [h, ih]

theorem Ledger.nodup_keys_set (l : Ledger) (k v : String)
    (h : (Ledger.keys l).Nodup) : (Ledger.keys (Ledger.set l k v)).Nodup := by
  induction l with
  | nil => simp
  | cons e rest ih =>
    by_cases hk : k = e.1
    · subst hk
      simpa using h
    · simp only [Ledger.set_cons, if_neg hk, Ledger.keys_cons, List.nodup_cons] at h ⊢
      refine ⟨fun hc => ?_, ih h.2⟩
      rcases (Ledger.mem_keys_set rest k v e.1).mp hc with hc' | hc'
      · exact h.1 hc'
      · exact hk hc'.symm

theorem Ledger.lookup_eq_of_perm {l1 l2 : Ledger} (h : l1.Perm l2) :
    (Ledger.keys l1).Nodup → ∀ k, Ledger.lookup l1 k = Ledger.lookup l2 k := by
  induction h with
  | nil => intro _ k; rfl
  | cons x _ ih =>
    intro nd k
    simp only [Ledger.keys_cons, List.nodup_cons] at nd
    by_cases hx : k = x.1 <;> simp [hx, ih nd.2 k]
  | swap x y l =>
    intro nd k
    simp only [Ledger.keys_cons, List.nodup_cons, List.mem_cons] at nd
    have hxy : y.1 ≠ x.1 := fun hc => nd.1 (Or.inl hc)
    by_cases h1 : k = y.1
    · subst h1
      simp [hxy]
    · by_cases h2 : k = x.1
      · subst h2
        simp [h1]
      · simp [h1, h2]
  | trans h1 _ ih1 ih2 =>
    intro nd k
    have nd2 := ((h1.map Prod.fst).nodup_iff).mp nd
    exact (ih1 nd k).trans (ih2 nd2 k)

/-- `sortLedger` permutes the entries. -/
theorem sortLedger_perm (l : Ledger) : (sortLedger l).Perm l :=
  List.perm_insertionSort entryLe l

/-- Sorting the ledger does not change lookups when keys are unique. -/
theorem lookup_sortLedger (l : Ledger) (nd : (Ledger.keys l).Nodup) (k : String) :
    Ledger.lookup (sortLedger l) k = Ledger.lookup l k := by
  have hperm : (sortLedger l).Perm l := sortLedger_perm l
  have nd2 : (Ledger.keys (sortLedger l)).Nodup := (hperm.map Prod.fst).nodup_iff.mpr nd
  exact Ledger.lookup_eq_of_perm hperm nd2 k

/-- The keys of the sorted ledger are sorted. -/
theorem sortLedger_sorted (l : Ledger) : List.Sorted entryLe (sortLedger l) :=
  List.sorted_insertionSort entryLe l

/-- Sorting an already-sorted ledger changes nothing. -/
theorem sortLedger_idem (l : Ledger) : sortLedger (sortLedger l) = sortLedger l :=
  (sortLedger_sorted l).insertionSort_eq

/-! ## Key injectivity -/

theorem draftKey_inj {a b : String} (h : draftKey a = draftKey b) : a = b := by
  have h2 : (".src/draft/" ++ a ++ "/definition.ts").data
      = (".src/draft/" ++ b ++ "/definition.ts").data := congrArg String.data h
  simp only [String.data_append] at h2
  have h3 := List.append_cancel_right h2
  have h4 := List.append_cancel_left h3
  cases a; cases b
  exact congrArg String.mk h4

/-! ## Step equations of the draft loop -/

theorem processDraft_skip (env : Env) {force : Bool} {st : RunState} {d : DraftInput}
    (h : skipCond force st d) :
    processDraft env force st d = .ok (skipState st d) := by
  unfold processDraft skipState
  rw [if_pos h]

theorem processDraft_ok (env : Env) {force : Bool} {st : RunState} {d : DraftInput}
    (h : ¬skipCond force st d) (ho : (env.outcome d.id).isOk = true) :
    processDraft env force st d = .ok (stepOkState env st d) := by
  unfold processDraft stepOkState stepErrState
  rw [if_neg h, if_pos ho]

theorem processDraft_error (env : Env) {force : Bool} {st : RunState} {d : DraftInput}
    (h : ¬skipCond force st d) (ho : (env.outcome d.id).isOk = false) :
    processDraft env force st d = .error (stepErrState env st d, d.id) := by
  unfold processDraft stepErrState
  rw [if_neg h, if_neg (by simp [ho])]

theorem processDrafts_nil (env : Env) (f : Bool) (st : RunState) :
    processDrafts env f st [] = .ok st := rfl

theorem processDrafts_cons_skip (env : Env) {f : Bool} {st : RunState} {d : DraftInput}
    (rest : List DraftInput) (h : skipCond f st d) :
    processDrafts env f st (d :: rest) = processDrafts env f (skipState st d) rest := by
  simp only [processDrafts]
  rw [processDraft_skip env h]

theorem processDrafts_cons_ok (env : Env) {f : Bool} {st : RunState} {d : DraftInput}
    (rest : List DraftInput) (h : ¬skipCond f st d) (ho : (env.outcome d.id).isOk = true) :
    processDrafts env f st (d :: rest) = processDrafts env f (stepOkState env st d) rest := by
  simp only [processDrafts]
  rw [processDraft_ok env h ho]

theorem processDrafts_cons_err (env : Env) {f : Bool} {st : RunState} {d : DraftInput}
    (rest : List DraftInput) (h : ¬skipCond f st d) (ho : (env.outcome d.id).isOk = false) :
    processDrafts env f st (d :: rest) = .error (stepErrState env st d, d.id) := by
  simp only [processDrafts]
  rw [processDraft_error env h ho]

@[simp] theorem skipState_checksums (st : RunState) (d : DraftInput) :
    (skipState st d).checksums = st.checksums := rfl

@[simp] theorem skipState_copyrights (st : RunState) (d : DraftInput) :
    (skipState st d).copyrights = st.copyrights ++ [(d.draftField, d.copyright)] := rfl

@[simp] theorem skipState_skipped (st : RunState) (d : DraftInput) :
    (skipState st d).skipped = st.skipped ++ [d.id] := rfl

@[simp] theorem skipState_processed (st : RunState) (d : DraftInput) :
    (skipState st d).processed = st.processed := rfl

@[simp] theorem skipState_writes (st : RunState) (d : DraftInput) :
    (skipState st d).writes = st.writes := rfl

@[simp] theorem stepErrState_checksums (env : Env) (st : RunState) (d : DraftInput) :
    (stepErrState env st d).checksums = Ledger.set st.checksums (draftKey d.id) d.digest := rfl

@[simp] theorem stepErrState_copyrights (env : Env) (st : RunState) (d : DraftInput) :
    (stepErrState env st d).copyrights = st.copyrights ++ [(d.draftField, d.copyright)] := rfl

@[simp] theorem stepErrState_skipped (env : Env) (st : RunState) (d : DraftInput) :
    (stepErrState env st d).skipped = st.skipped := rfl

@[simp] theorem stepErrState_processed (env : Env) (st : RunState) (d : DraftInput) :
    (stepErrState env st d).processed = st.processed := rfl

@[simp] theorem stepErrState_writes (env : Env) (st : RunState) (d : DraftInput) :
    (stepErrState env st d).writes = st.writes ++ pipelineWrites d (env.outcome d.id) := rfl

@[simp] theorem stepOkState_checksums (env : Env) (st : RunState) (d : DraftInput) :
    (stepOkState env st d).checksums = Ledger.set st.checksums (draftKey d.id) d.digest := rfl

@[simp] theorem stepOkState_copyrights (env : Env) (st : RunState) (d : DraftInput) :
    (stepOkState env st d).copyrights = st.copyrights ++ [(d.draftField, d.copyright)] := rfl

@[simp] theorem stepOkState_skipped (env : Env) (st : RunState) (d : DraftInput) :
    (stepOkState env st d).skipped = st.skipped := rfl

@[simp] theorem stepOkState_processed (env : Env) (st : RunState) (d : DraftInput) :
    (stepOkState env st d).processed = st.processed ++ [d.id] := rfl

@[simp] theorem stepOkState_writes (env : Env) (st : RunState) (d : DraftInput) :
    (stepOkState env st d).writes = st.writes ++ pipelineWrites d (env.outcome d.id) := rfl

@[simp] theorem resState_ok (st : RunState) : resState (.ok st) = st := rfl

@[simp] theorem resState_error (st : RunState) (i : String) :
    resState (.error (st, i)) = st := rfl

theorem draftKey_ne {a b : String} (h : a ≠ b) : draftKey a ≠ draftKey b :=
  fun hc => h (draftKey_inj hc)

/-! ## Loop invariants -/

/-- Keys that belong to no draft of the list keep their ledger value,
whether the loop finishes or aborts. -/
theorem processDrafts_lookup_unrelated (env : Env) (f : Bool) :
    ∀ (ds : List DraftInput) (st : RunState) (k : String),
      (∀ d ∈ ds, k ≠ draftKey d.id) →
      Ledger.lookup (resState (processDrafts env f st ds)).checksums k
        = Ledger.lookup st.checksums k := by
  intro ds
  induction ds with
  | nil => intro st k _; rfl
  | cons d rest ih =>
    intro st k hk
    have hkd : k ≠ draftKey d.id := hk d (List.mem_cons_self d rest)
    have hkrest : ∀ d' ∈ rest, k ≠ draftKey d'.id :=
      fun d' hd' => hk d' (List.mem_cons_of_mem d hd')
    by_cases hc : skipCond f st d
    · rw [processDrafts_cons_skip env rest hc, ih (skipState st d) k hkrest]
      simp
    · cases ho : (env.outcome d.id).isOk
      · rw [processDrafts_cons_err env rest hc ho]
        simpa using Ledger.lookup_set_ne st.checksums d.digest hkd
      · rw [processDrafts_cons_ok env rest hc ho, ih (stepOkState env st d) k hkrest]
        simpa using Ledger.lookup_set_ne st.checksums d.digest hkd

/-- Key uniqueness of the in-memory ledger is preserved by the loop. -/
theorem processDrafts_nodup_keys (env : Env) (f : Bool) :
    ∀ (ds : List DraftInput) (st : RunState),
      (Ledger.keys st.checksums).Nodup →
      (Ledger.keys (resState (processDrafts env f st ds)).checksums).Nodup := by
  intro ds
  induction ds with
  | nil => intro st h; exact h
  | cons d rest ih =>
    intro st h
    by_cases hc : skipCond f st d
    · rw [processDrafts_cons_skip env rest hc]
      exact ih (skipState st d) h
    · cases ho : (env.outcome d.id).isOk
      · rw [processDrafts_cons_err env rest hc ho]
        simpa using Ledger.nodup_keys_set st.checksums (draftKey d.id) d.digest h
      · rw [processDrafts_cons_ok env rest hc ho]
        exact ih (stepOkState env st d)
          (by simpa using Ledger.nodup_keys_set st.checksums (draftKey d.id) d.digest h)

/-- The loop never removes a ledger key. -/
theorem processDrafts_keys_superset (env : Env) (f : Bool) :
    ∀ (ds : List DraftInput) (st : RunState) (x : String),
      x ∈ Ledger.keys st.checksums →
      x ∈ Ledger.keys (resState (processDrafts env f st ds)).checksums := by
  intro ds
  induction ds with
  | nil => intro st x h; exact h
  | cons d rest ih =>
    intro st x h
    by_cases hc : skipCond f st d
    · rw [processDrafts_cons_skip env rest hc]
      exact ih (skipState st d) x h
    · cases ho : (env.outcome d.id).isOk
      · rw [processDrafts_cons_err env rest hc ho]
        simpa using Ledger.keys_subset_set st.checksums (draftKey d.id) d.digest x h
      · rw [processDrafts_cons_ok env rest hc ho]
        exact ih (stepOkState env st d) x
          (by simpa using Ledger.keys_subset_set st.checksums (draftKey d.id) d.digest x h)

theorem processDrafts_skipped_superset (env : Env) (f : Bool) :
    ∀ (ds : List DraftInput) (st : RunState) (x : String),
      x ∈ st.skipped → x ∈ (resState (processDrafts env f st ds)).skipped := by
  intro ds
  induction ds with
  | nil => intro st x h; exact h
  | cons d rest ih =>
    intro st x h
    by_cases hc : skipCond f st d
    · rw [processDrafts_cons_skip env rest hc]
      exact ih (skipState st d) x (by simp [List.mem_append, h])
    · cases ho : (env.outcome d.id).isOk
      · rw [processDrafts_cons_err env rest hc ho]
        simpa using h
      · rw [processDrafts_cons_ok env rest hc ho]
        exact ih (stepOkState env st d) x (by simpa using h)

theorem processDrafts_processed_superset (env : Env) (f : Bool) :
    ∀ (ds : List DraftInput) (st : RunState) (x : String),
      x ∈ st.processed → x ∈ (resState (processDrafts env f st ds)).processed := by
  intro ds
  induction ds with
  | nil => intro st x h; exact h
  | cons d rest ih =>
    intro st x h
    by_cases hc : skipCond f st d
    · rw [processDrafts_cons_skip env rest hc]
      exact ih (skipState st d) x (by simpa using h)
    · cases ho : (env.outcome d.id).isOk
      · rw [processDrafts_cons_err env rest hc ho]
        simpa using h
      · rw [processDrafts_cons_ok env rest hc ho]
        exact ih (stepOkState env st d) x (by simp [List.mem_append, h])

theorem processDrafts_skipped_subset (env : Env) (f : Bool) :
    ∀ (ds : List DraftInput) (st : RunState) (x : String),
      x ∈ (resState (processDrafts env f st ds)).skipped →
      x ∈ st.skipped ∨ x ∈ ds.map DraftInput.id := by
  intro ds
  induction ds with
  | nil => intro st x h; exact Or.inl h
  | cons d rest ih =>
    intro st x h
    by_cases hc : skipCond f st d
    · rw [processDrafts_cons_skip env rest hc] at h
      rcases ih (skipState st d) x h with h2 | h2
      · simp only [skipState_skipped, List.mem_append, List.mem_singleton] at h2
        rcases h2 with h3 | h3
        · exact Or.inl h3
        · exact Or.inr (by simp [h3])
      · exact Or.inr (by simp [h2])
    · cases ho : (env.outcome d.id).isOk
      · rw [processDrafts_cons_err env rest hc ho] at h
        exact Or.inl (by simpa using h)
      · rw [processDrafts_cons_ok env rest hc ho] at h
        rcases ih (stepOkState env st d) x h with h2 | h2
        · exact Or.inl (by simpa using h2)
        · exact Or.inr (by simp [h2])

theorem processDrafts_processed_subset (env : Env) (f : Bool) :
    ∀ (ds : List DraftInput) (st : RunState) (x : String),
      x ∈ (resState (processDrafts env f st ds)).processed →
      x ∈ st.processed ∨ x ∈ ds.map DraftInput.id := by
  intro ds
  induction ds with
  | nil => intro st x h; exact Or.inl h
  | cons d rest ih =>
    intro st x h
    by_cases hc : skipCond f st d
    · rw [processDrafts_cons_skip env rest hc] at h
      rcases ih (skipState st d) x h with h2 | h2
      · exact Or.inl (by simpa using h2)
      · exact Or.inr (by simp [h2])
    · cases ho : (env.outcome d.id).isOk
      · rw [processDrafts_cons_err env rest hc ho] at h
        exact Or.inl (by simpa using h)
      · rw [processDrafts_cons_ok env rest hc ho] at h
        rcases ih (stepOkState env st d) x h with h2 | h2
        · simp only [stepOkState_processed, List.mem_append, List.mem_singleton] at h2
          rcases h2 with h3 | h3
          · exact Or.inl h3
          · exact Or.inr (by simp [h3])
        · exact Or.inr (by simp [h2])

theorem skipCond_stepOk (env : Env) {f : Bool} {st : RunState} {d d0 : DraftInput}
    (h : draftKey d.id ≠ draftKey d0.id) :
    skipCond f (stepOkState env st d0) d ↔ skipCond f st d := by
  unfold skipCond
  rw [stepOkState_checksums, Ledger.lookup_set_ne _ _ h]

theorem skipCond_skip {f : Bool} {st : RunState} {d d0 : DraftInput} :
    skipCond f (skipState st d0) d ↔ skipCond f st d := Iff.rfl

/-- After a finished loop with distinct identifiers, every draft's in-memory
ledger entry equals its current digest (set by processing, or already equal
when skipped and untouched afterwards). -/
theorem processDrafts_ok_lookup (env : Env) (f : Bool) :
    ∀ (ds : List DraftInput) (st st' : RunState),
      processDrafts env f st ds = .ok st' →
      (ds.map DraftInput.id).Nodup →
      ∀ d ∈ ds, Ledger.lookup st'.checksums (draftKey d.id) = some d.digest := by
  intro ds
  induction ds with
  | nil => intro st st' _ _ d hd; exact absurd hd (List.not_mem_nil d)
  | cons d0 rest ih =>
    intro st st' hok hnd d hd
    simp only [List.map_cons, List.nodup_cons] at hnd
    obtain ⟨h0, hndr⟩ := hnd
    rcases List.mem_cons.mp hd with rfl | hdr
    · have hkeys : ∀ d' ∈ rest, draftKey d.id ≠ draftKey d'.id := by
        intro d' hd'
        exact draftKey_ne (fun he => h0 (he ▸ List.mem_map_of_mem DraftInput.id hd'))
      by_cases hc : skipCond f st d
      · rw [processDrafts_cons_skip env rest hc] at hok
        have hres := processDrafts_lookup_unrelated env f rest (skipState st d)
          (draftKey d.id) hkeys
        rw [hok] at hres
        simp only [resState_ok, skipState_checksums] at hres
        rw [hres]
        exact hc.1
      · cases ho : (env.outcome d.id).isOk
        · rw [processDrafts_cons_err env rest hc ho] at hok
          simp at hok
        · rw [processDrafts_cons_ok env rest hc ho] at hok
          have hres := processDrafts_lookup_unrelated env f rest (stepOkState env st d)
            (draftKey d.id) hkeys
          rw [hok] at hres
          simp only [resState_ok, stepOkState_checksums] at hres
          rw [hres]
          exact Ledger.lookup_set_self st.checksums (draftKey d.id) d.digest
    · by_cases hc : skipCond f st d0
      · rw [processDrafts_cons_skip env rest hc] at hok
        exact ih (skipState st d0) st' hok hndr d hdr
      · cases ho : (env.outcome d0.id).isOk
        · rw [processDrafts_cons_err env rest hc ho] at hok
          simp at hok
        · rw [processDrafts_cons_ok env rest hc ho] at hok
          exact ih (stepOkState env st d0) st' hok hndr d hdr

/-- After a finished loop with distinct identifiers, a draft is logged as
skipped exactly when the skip condition held against the incoming state, and
logged as complete exactly otherwise. -/
theorem processDrafts_ok_status (env : Env) (f : Bool) :
    ∀ (ds : List DraftInput) (st st' : RunState),
      processDrafts env f st ds = .ok st' →
      (ds.map DraftInput.id).Nodup →
      ∀ d ∈ ds,
        (d.id ∈ st'.skipped ↔ d.id ∈ st.skipped ∨ skipCond f st d) ∧
        (d.id ∈ st'.processed ↔ d.id ∈ st.processed ∨ ¬skipCond f st d) := by
  intro ds
  induction ds with
  | nil => intro st st' _ _ d hd; exact absurd hd (List.not_mem_nil d)
  | cons d0 rest ih =>
    intro st st' hok hnd d hd
    simp only [List.map_cons, List.nodup_cons] at hnd
    obtain ⟨h0, hndr⟩ := hnd
    rcases List.mem_cons.mp hd with rfl | hdr
    · by_cases hc : skipCond f st d
      · rw [processDrafts_cons_skip env rest hc] at hok
        constructor
        · constructor
          · intro _
            exact Or.inr hc
          · intro _
            have hmem : d.id ∈ (skipState st d).skipped := by simp
            have hsup := processDrafts_skipped_superset env f rest (skipState st d) d.id hmem
            rw [hok] at hsup
            simpa using hsup
        · constructor
          · intro hp
            have hsub := processDrafts_processed_subset env f rest (skipState st d) d.id
              (by rw [hok]; simpa using hp)
            rcases hsub with h2 | h2
            · exact Or.inl (by simpa using h2)
            · exact absurd h2 h0
          · intro hp
            rcases hp with hp | hp
            · have hsup := processDrafts_processed_superset env f rest (skipState st d) d.id
                (by simpa using hp)
              rw [hok] at hsup
              simpa using hsup
            · exact absurd hc hp
      · cases ho : (env.outcome d.id).isOk
        · rw [processDrafts_cons_err env rest hc ho] at hok
          simp at hok
        · rw [processDrafts_cons_ok env rest hc ho] at hok
          constructor
          · constructor
            · intro hs
              have hsub := processDrafts_skipped_subset env f rest (stepOkState env st d) d.id
                (by rw [hok]; simpa using hs)
              rcases hsub with h2 | h2
              · exact Or.inl (by simpa using h2)
              · exact absurd h2 h0
            · intro hs
              rcases hs with hs | hs
              · have hsup := processDrafts_skipped_superset env f rest (stepOkState env st d) d.id
                  (by simpa using hs)
                rw [hok] at hsup
                simpa using hsup
              · exact absurd hs hc
          · constructor
            · intro _
              exact Or.inr hc
            · intro _
              have hmem : d.id ∈ (stepOkState env st d).processed := by simp
              have hsup := processDrafts_processed_superset env f rest (stepOkState env st d) d.id hmem
              rw [hok] at hsup
              simpa using hsup
    · have hne : d.id ≠ d0.id := by
        intro he
        exact h0 (he ▸ List.mem_map_of_mem DraftInput.id hdr)
      by_cases hc : skipCond f st d0
      · rw [processDrafts_cons_skip env rest hc] at hok
        have hmain := ih (skipState st d0) st' hok hndr d hdr
        have hsk : (d.id ∈ (skipState st d0).skipped) ↔ d.id ∈ st.skipped := by simp [hne]
        rw [hsk] at hmain
        exact hmain
      · cases ho : (env.outcome d0.id).isOk
        · rw [processDrafts_cons_err env rest hc ho] at hok
          simp at hok
        · rw [processDrafts_cons_ok env rest hc ho] at hok
          have hmain := ih (stepOkState env st d0) st' hok hndr d hdr
          have hpc : (d.id ∈ (stepOkState env st d0).processed) ↔ d.id ∈ st.processed := by
            simp [hne]
          have hcond := @skipCond_stepOk env f st d d0 (draftKey_ne hne)
          rw [hpc, hcond] at hmain
          exact hmain

/-- Decomposition of a written pipeline file: it is the draft's JSON
definition or its banner-prefixed module. -/
theorem mem_pipelineWrites {d : DraftInput} {o : DraftOutcome} {p : OutPath} {c : String}
    (h : (p, c) ∈ pipelineWrites d o) :
    p = OutPath.specJson d.id ∨ (p = OutPath.denoModule d.id ∧ ∃ m, c = modFileContent m) := by
  cases o with
  | failFormat => simp [pipelineWrites] at h
  | failExpand j =>
    simp only [pipelineWrites, List.mem_singleton, Prod.mk.injEq] at h
    exact Or.inl h.1
  | failCompile j m =>
    simp only [pipelineWrites, List.mem_cons, List.mem_singleton, Prod.mk.injEq,
      List.not_mem_nil, or_false] at h
    rcases h with h | h
    · exact Or.inl h.1
    · exact Or.inr ⟨h.1, m, h.2⟩
  | success j m =>
    simp only [pipelineWrites, List.mem_cons, List.mem_singleton, Prod.mk.injEq,
      List.not_mem_nil, or_false] at h
    rcases h with h | h
    · exact Or.inl h.1
    · exact Or.inr ⟨h.1, m, h.2⟩

/-- Every file the loop writes is a pipeline file of one of its drafts. -/
theorem processDrafts_writes_shape (env : Env) (f : Bool) :
    ∀ (ds : List DraftInput) (st : RunState) (p : OutPath) (c : String),
      (p, c) ∈ (resState (processDrafts env f st ds)).writes →
      (p, c) ∈ st.writes ∨
        ∃ d, d ∈ ds ∧
          (p = OutPath.specJson d.id ∨ (p = OutPath.denoModule d.id ∧ ∃ m, c = modFileContent m)) := by
  intro ds
  induction ds with
  | nil => intro st p c h; exact Or.inl h
  | cons d rest ih =>
    intro st p c h
    by_cases hc : skipCond f st d
    · rw [processDrafts_cons_skip env rest hc] at h
      rcases ih (skipState st d) p c h with h2 | ⟨d', hd', h2⟩
      · exact Or.inl (by simpa using h2)
      · exact Or.inr ⟨d', List.mem_cons_of_mem d hd', h2⟩
    · cases ho : (env.outcome d.id).isOk
      · rw [processDrafts_cons_err env rest hc ho] at h
        simp only [resState_error, stepErrState_writes, List.mem_append] at h
        rcases h with h2 | h2
        · exact Or.inl h2
        · exact Or.inr ⟨d, List.mem_cons_self d rest, mem_pipelineWrites h2⟩
      · rw [processDrafts_cons_ok env rest hc ho] at h
        rcases ih (stepOkState env st d) p c h with h2 | ⟨d', hd', h2⟩
        · simp only [stepOkState_writes, List.mem_append] at h2
          rcases h2 with h3 | h3
          · exact Or.inl h3
          · exact Or.inr ⟨d, List.mem_cons_self d rest, mem_pipelineWrites h3⟩
        · exact Or.inr ⟨d', List.mem_cons_of_mem d hd', h2⟩

/-- With the force flag unset and every draft's digest already recorded,
the loop skips everything: it only accumulates copyright entries and skip
log lines, and leaves the ledger, the write log and the completion log
untouched. -/
theorem processDrafts_all_skip (env : Env) :
    ∀ (ds : List DraftInput) (st : RunState),
      (∀ d ∈ ds, Ledger.lookup st.checksums (draftKey d.id) = some d.digest) →
      processDrafts env false st ds = .ok
        { st with
          copyrights := st.copyrights ++ ds.map (fun d => (d.draftField, d.copyright)),
          skipped := st.skipped ++ ds.map DraftInput.id } := by
  intro ds
  induction ds with
  | nil =>
    intro st _
    simp [processDrafts_nil]
  | cons d rest ih =>
    intro st hall
    have hc : skipCond false st d := ⟨hall d (List.mem_cons_self d rest), rfl⟩
    rw [processDrafts_cons_skip env rest hc]
    rw [ih (skipState st d) (fun d' hd' => hall d' (List.mem_cons_of_mem d hd'))]
    simp

/-- When the loop aborts, the drafts list splits at the failing draft:
everything logged or written comes from the prefix before it (plus the
failing draft's own partial writes); no later draft was touched. -/
theorem processDrafts_err_decomp (env : Env) (f : Bool) :
    ∀ (ds : List DraftInput) (st st' : RunState) (i : String),
      processDrafts env f st ds = .error (st', i) →
      ∃ pre dfail post, ds = pre ++ dfail :: post ∧ dfail.id = i ∧
        (∀ x ∈ st'.skipped, x ∈ st.skipped ∨ x ∈ pre.map DraftInput.id) ∧
        (∀ x ∈ st'.processed, x ∈ st.processed ∨ x ∈ pre.map DraftInput.id) ∧
        (∀ p c, (p, c) ∈ st'.writes → (p, c) ∈ st.writes ∨
          ∃ e, (e ∈ pre ∨ e = dfail) ∧
            (p = OutPath.specJson e.id ∨ p = OutPath.denoModule e.id)) := by
  intro ds
  induction ds with
  | nil => intro st st' i h; simp [processDrafts_nil] at h
  | cons d rest ih =>
    intro st st' i h
    by_cases hc : skipCond f st d
    · rw [processDrafts_cons_skip env rest hc] at h
      obtain ⟨pre, dfail, post, heq, hid, hsk, hpr, hwr⟩ := ih (skipState st d) st' i h
      refine ⟨d :: pre, dfail, post, by rw [heq]; rfl, hid, ?_, ?_, ?_⟩
      · intro x hx
        rcases hsk x hx with h2 | h2
        · simp only [skipState_skipped, List.mem_append, List.mem_singleton] at h2
          rcases h2 with h3 | h3
          · exact Or.inl h3
          · exact Or.inr (by simp [h3])
        · exact Or.inr (by simp [h2])
      · intro x hx
        rcases hpr x hx with h2 | h2
        · exact Or.inl (by simpa using h2)
        · exact Or.inr (by simp [h2])
      · intro p c hpc
        rcases hwr p c hpc with h2 | ⟨e, he, h3⟩
        · exact Or.inl (by simpa using h2)
        · refine Or.inr ⟨e, ?_, h3⟩
          rcases he with he | he
          · exact Or.inl (List.mem_cons_of_mem d he)
          · exact Or.inr he
    · cases ho : (env.outcome d.id).isOk
      · rw [processDrafts_cons_err env rest hc ho] at h
        injection h with h3
        have hst : stepErrState env st d = st' := congrArg Prod.fst h3
        have hid : d.id = i := congrArg Prod.snd h3
        subst hst
        refine ⟨[], d, rest, rfl, hid, ?_, ?_, ?_⟩
        · intro x hx
          exact Or.inl (by simpa using hx)
        · intro x hx
          exact Or.inl (by simpa using hx)
        · intro p c hpc
          simp only [stepErrState_writes, List.mem_append] at hpc
          rcases hpc with h3 | h3
          · exact Or.inl h3
          · rcases mem_pipelineWrites h3 with h4 | h4
            · exact Or.inr ⟨d, Or.inr rfl, Or.inl h4⟩
            · exact Or.inr ⟨d, Or.inr rfl, Or.inr h4.1⟩
      · rw [processDrafts_cons_ok env rest hc ho] at h
        obtain ⟨pre, dfail, post, heq, hid, hsk, hpr, hwr⟩ := ih (stepOkState env st d) st' i h
        refine ⟨d :: pre, dfail, post, by rw [heq]; rfl, hid, ?_, ?_, ?_⟩
        · intro x hx
          rcases hsk x hx with h2 | h2
          · exact Or.inl (by simpa using h2)
          · exact Or.inr (by simp [h2])
        · intro x hx
          rcases hpr x hx with h2 | h2
          · simp only [stepOkState_processed, List.mem_append, List.mem_singleton] at h2
            rcases h2 with h3 | h3
            · exact Or.inl h3
            · exact Or.inr (by simp [h3])
          · exact Or.inr (by simp [h2])
        · intro p c hpc
          rcases hwr p c hpc with h2 | ⟨e, he, h3⟩
          · simp only [stepOkState_writes, List.mem_append] at h2
            rcases h2 with h3 | h3
            · exact Or.inl h3
            · rcases mem_pipelineWrites h3 with h4 | h4
              · exact Or.inr ⟨d, Or.inl (List.mem_cons_self d pre), Or.inl h4⟩
              · exact Or.inr ⟨d, Or.inl (List.mem_cons_self d pre), Or.inr h4.1⟩
          · refine Or.inr ⟨e, ?_, h3⟩
            rcases he with he | he
            · exact Or.inl (List.mem_cons_of_mem d he)
            · exact Or.inr he

/-- When the loop aborts without `--force`, the failing draft's incoming
ledger entry did not match its digest (that is why it was not skipped). -/
theorem processDrafts_err_digest_ne (env : Env) :
    ∀ (ds : List DraftInput) (st st' : RunState) (i : String),
      processDrafts env false st ds = .error (st', i) →
      (ds.map DraftInput.id).Nodup →
      ∀ d ∈ ds, d.id = i →
        Ledger.lookup st.checksums (draftKey d.id) ≠ some d.digest := by
  intro ds
  induction ds with
  | nil => intro st st' i h; simp [processDrafts_nil] at h
  | cons d0 rest ih =>
    intro st st' i h hnd d hd hdi
    simp only [List.map_cons, List.nodup_cons] at hnd
    obtain ⟨h0, hndr⟩ := hnd
    by_cases hc : skipCond false st d0
    · rw [processDrafts_cons_skip env rest hc] at h
      obtain ⟨pre, dfail, post, heq, hid, -, -, -⟩ :=
        processDrafts_err_decomp env false rest _ st' i h
      have hi_mem : i ∈ rest.map DraftInput.id := by
        rw [heq, ← hid]
        exact List.mem_map_of_mem DraftInput.id (by simp)
      rcases List.mem_cons.mp hd with rfl | hdr
      · exact absurd (show d.id ∈ rest.map DraftInput.id by rw [hdi]; exact hi_mem) h0
      · exact ih (skipState st d0) st' i h hndr d hdr hdi
    · cases ho : (env.outcome d0.id).isOk
      · rw [processDrafts_cons_err env rest hc ho] at h
        injection h with h3
        have hid : d0.id = i := congrArg Prod.snd h3
        rcases List.mem_cons.mp hd with rfl | hdr
        · intro hl
          exact hc ⟨hl, rfl⟩
        · have hdd0 : d.id = d0.id := hdi.trans hid.symm
          exact absurd (show d0.id ∈ rest.map DraftInput.id by
            rw [← hdd0]; exact List.mem_map_of_mem DraftInput.id hdr) h0
      · rw [processDrafts_cons_ok env rest hc ho] at h
        obtain ⟨pre, dfail, post, heq, hid, -, -, -⟩ :=
          processDrafts_err_decomp env false rest _ st' i h
        have hi_mem : i ∈ rest.map DraftInput.id := by
          rw [heq, ← hid]
          exact List.mem_map_of_mem DraftInput.id (by simp)
        rcases List.mem_cons.mp hd with rfl | hdr
        · exact absurd (show d.id ∈ rest.map DraftInput.id by rw [hdi]; exact hi_mem) h0
        · have hne : draftKey d.id ≠ draftKey d0.id :=
            draftKey_ne (fun he => h0 (he ▸ List.mem_map_of_mem DraftInput.id hdr))
          have hrec := ih (stepOkState env st d0) st' i h hndr d hdr hdi
          rwa [stepOkState_checksums, Ledger.lookup_set_ne _ _ hne] at hrec

/-! ## Shape of the whole run -/

@[simp] theorem addWrite_checksums (st : RunState) (p : OutPath) (c : String) :
    (addWrite st p c).checksums = st.checksums := rfl

@[simp] theorem addWrite_copyrights (st : RunState) (p : OutPath) (c : String) :
    (addWrite st p c).copyrights = st.copyrights := rfl

@[simp] theorem addWrite_skipped (st : RunState) (p : OutPath) (c : String) :
    (addWrite st p c).skipped = st.skipped := rfl

@[simp] theorem addWrite_processed (st : RunState) (p : OutPath) (c : String) :
    (addWrite st p c).processed = st.processed := rfl

@[simp] theorem addWrite_writes (st : RunState) (p : OutPath) (c : String) :
    (addWrite st p c).writes = st.writes ++ [(p, c)] := rfl

@[simp] theorem okFinalState_checksums (env : Env) (I : BuildInput) (stL : RunState) (latest : String) :
    (okFinalState env I stL latest).checksums = stL.checksums := rfl

@[simp] theorem okFinalState_copyrights (env : Env) (I : BuildInput) (stL : RunState) (latest : String) :
    (okFinalState env I stL latest).copyrights = stL.copyrights := rfl

@[simp] theorem okFinalState_skipped (env : Env) (I : BuildInput) (stL : RunState) (latest : String) :
    (okFinalState env I stL latest).skipped = stL.skipped := rfl

@[simp] theorem okFinalState_processed (env : Env) (I : BuildInput) (stL : RunState) (latest : String) :
    (okFinalState env I stL latest).processed = stL.processed := rfl

@[simp] theorem okFinalState_writes (env : Env) (I : BuildInput) (stL : RunState) (latest : String) :
    (okFinalState env I stL latest).writes =
      (stL.writes ++ [(OutPath.checksumsFile, serializeLedger (sortLedger stL.checksums))]) ++
        finalWrites env I ((sortDrafts I.drafts).map DraftInput.id) latest stL.copyrights := rfl

theorem runBuild_eq_ok (env : Env) (I : BuildInput) (stL : RunState) (latest : String)
    (hl : processDrafts env I.force (initState I) (sortDrafts I.drafts) = .ok stL)
    (hlatest : latestDraft ((sortDrafts I.drafts).map DraftInput.id) = some latest) :
    runBuild env I = .ok (okFinalState env I stL latest) := by
  unfold runBuild
  rw [hl, hlatest]
  rfl

theorem runBuild_eq_err_draft (env : Env) (I : BuildInput) (stE : RunState) (i : String)
    (hl : processDrafts env I.force (initState I) (sortDrafts I.drafts) = .error (stE, i)) :
    runBuild env I = .err (.draftFailure i) stE := by
  unfold runBuild
  rw [hl]

theorem runBuild_eq_err_nolatest (env : Env) (I : BuildInput) (stL : RunState)
    (hl : processDrafts env I.force (initState I) (sortDrafts I.drafts) = .ok stL)
    (hn : latestDraft ((sortDrafts I.drafts).map DraftInput.id) = none) :
    runBuild env I = .err .noLatestDraft (noLatestState stL) := by
  unfold runBuild
  rw [hl, hn]
  rfl

/-- Exhaustive description of what a run can be. -/
theorem runBuild_cases (env : Env) (I : BuildInput) :
    (∃ stL latest,
      processDrafts env I.force (initState I) (sortDrafts I.drafts) = .ok stL ∧
      latestDraft ((sortDrafts I.drafts).map DraftInput.id) = some latest ∧
      runBuild env I = .ok (okFinalState env I stL latest)) ∨
    (∃ stL,
      processDrafts env I.force (initState I) (sortDrafts I.drafts) = .ok stL ∧
      latestDraft ((sortDrafts I.drafts).map DraftInput.id) = none ∧
      runBuild env I = .err .noLatestDraft (noLatestState stL)) ∨
    (∃ stE i,
      processDrafts env I.force (initState I) (sortDrafts I.drafts) = .error (stE, i) ∧
      runBuild env I = .err (.draftFailure i) stE) := by
  cases hl : processDrafts env I.force (initState I) (sortDrafts I.drafts) with
  | ok stL =>
    cases hn : latestDraft ((sortDrafts I.drafts).map DraftInput.id) with
    | some latest => exact Or.inl ⟨stL, latest, rfl, rfl, runBuild_eq_ok env I stL latest hl hn⟩
    | none => exact Or.inr (Or.inl ⟨stL, rfl, rfl, runBuild_eq_err_nolatest env I stL hl hn⟩)
  | error e =>
    obtain ⟨stE, i⟩ := e
    exact Or.inr (Or.inr ⟨stE, i, rfl, runBuild_eq_err_draft env I stE i hl⟩)

/-! ## Sorting and latest-draft selection lemmas -/

theorem sortDrafts_perm (l : List DraftInput) : (sortDrafts l).Perm l :=
  List.perm_insertionSort draftLe l

theorem mem_sortDrafts {l : List DraftInput} {d : DraftInput} :
    d ∈ sortDrafts l ↔ d ∈ l :=
  (sortDrafts_perm l).mem_iff

theorem sortDrafts_sorted (l : List DraftInput) : List.Sorted draftLe (sortDrafts l) :=
  List.sorted_insertionSort draftLe l

theorem sortDrafts_ids_nodup {l : List DraftInput} (h : (l.map DraftInput.id).Nodup) :
    ((sortDrafts l).map DraftInput.id).Nodup :=
  ((sortDrafts_perm l).map DraftInput.id).nodup_iff.mpr h

theorem sortDrafts_ids_sorted (l : List DraftInput) :
    List.Sorted (fun a b : String => stringLe a b = true) ((sortDrafts l).map DraftInput.id) :=
  List.Pairwise.map DraftInput.id (fun _ _ h => h) (sortDrafts_sorted l)

theorem mem_of_getLast? : ∀ {l : List String} {a : String}, l.getLast? = some a → a ∈ l := by
  intro l
  induction l with
  | nil => intro a h; cases h
  | cons b rest ih =>
    intro a h
    cases rest with
    | nil =>
      simp only [List.getLast?_singleton, Option.some.injEq] at h
      simp [h]
    | cons c rest2 =>
      rw [List.getLast?_cons_cons] at h
      exact List.mem_cons_of_mem b (ih h)

theorem sorted_le_getLast :
    ∀ {l : List String}, List.Sorted (fun a b : String => stringLe a b = true) l →
      ∀ x ∈ l, ∀ y, l.getLast? = some y → stringLe x y = true := by
  intro l
  induction l with
  | nil => intro _ x hx; cases hx
  | cons a rest ih =>
    intro hs x hx y hy
    cases rest with
    | nil =>
      simp only [List.getLast?_singleton, Option.some.injEq] at hy
      rcases List.mem_singleton.mp hx with rfl
      subst hy
      exact stringLe_refl x
    | cons b rest2 =>
      rw [List.getLast?_cons_cons] at hy
      rcases List.mem_cons.mp hx with rfl | hx2
      · exact (List.sorted_cons.mp hs).1 y (mem_of_getLast? hy)
      · exact ih (List.sorted_cons.mp hs).2 x hx2 y hy

/-- The selected latest draft qualifies and is one of the identifiers. -/
theorem latestDraft_mem {ids : List String} {L : String} (h : latestDraft ids = some L) :
    L ∈ ids ∧ hasNumericPrefix L = true := by
  unfold latestDraft at h
  have hmem := mem_of_getLast? h
  exact ⟨(List.mem_filter.mp hmem).1, (List.mem_filter.mp hmem).2⟩

/-- Among the numeric-prefixed identifiers of an ascending list, the
selected latest draft is the largest in string order. -/
theorem latestDraft_isMax {ids : List String} {L : String}
    (hs : List.Sorted (fun a b : String => stringLe a b = true) ids)
    (h : latestDraft ids = some L) :
    ∀ x ∈ ids, hasNumericPrefix x = true → stringLe x L = true := by
  intro x hx hp
  unfold latestDraft at h
  have hsf : List.Sorted (fun a b : String => stringLe a b = true) (ids.filter hasNumericPrefix) :=
    List.Pairwise.filter hasNumericPrefix hs
  exact sorted_le_getLast hsf x (List.mem_filter.mpr ⟨hx, hp⟩) L h

/-- `latestDraft` is `undefined` exactly when no identifier qualifies. -/
theorem latestDraft_none_iff {ids : List String} :
    latestDraft ids = none ↔ ∀ x ∈ ids, hasNumericPrefix x = false := by
  unfold latestDraft
  rw [List.getLast?_eq_none_iff, List.filter_eq_nil_iff]
  constructor
  · intro h x hx
    exact Bool.not_eq_true _ ▸ (by simpa using h x hx)
  · intro h x hx
    simp [h x hx]

/-- Membership in the post-loop writes, by case. -/
theorem mem_finalWrites {env : Env} {I : BuildInput} {ids : List String}
    {latest : String} {cps : List (String × Copyright)} {p : OutPath} {c : String}
    (h : (p, c) ∈ finalWrites env I ids latest cps) :
    (p = OutPath.draftLatest ∧ c = latestAliasContent latest) ∨
    (p = OutPath.readmeDeno ∧ c = readmeContent I.readmeDenoTemplate ids latest) ∨
    (p = OutPath.readmeNode ∧ c = readmeContent I.readmeNodeTemplate ids latest) ∨
    ((p = OutPath.licenseRoot ∨ p = OutPath.licenseDeno ∨
        p = OutPath.licenseSpecDefs ∨ p = OutPath.licenseNode) ∧
      c = env.formatMarkdownFull
        (substituteLicense I.licenseTemplate I.year (copyrightBlock cps))) ∨
    (p = OutPath.packageJsonNode ∧
      c = serializePackageJson (updatePackageJson I.packageJson0 I.version latest ids)) ∨
    (p = OutPath.versionTs ∧ c = versionFileContent I.version) := by
  unfold finalWrites at h
  simp only [List.mem_cons, List.mem_singleton, Prod.mk.injEq,
    List.not_mem_nil, or_false] at h
  rcases h with ⟨hp, hc⟩ | ⟨hp, hc⟩ | ⟨hp, hc⟩ | ⟨hp, hc⟩ | ⟨hp, hc⟩ | ⟨hp, hc⟩ | ⟨hp, hc⟩ | ⟨hp, hc⟩ | ⟨hp, hc⟩
  · exact Or.inl ⟨hp, hc⟩
  · exact Or.inr (Or.inl ⟨hp, hc⟩)
  · exact Or.inr (Or.inr (Or.inl ⟨hp, hc⟩))
  · exact Or.inr (Or.inr (Or.inr (Or.inl ⟨Or.inl hp, hc⟩)))
  · exact Or.inr (Or.inr (Or.inr (Or.inl ⟨Or.inr (Or.inl hp), hc⟩)))
  · exact Or.inr (Or.inr (Or.inr (Or.inl ⟨Or.inr (Or.inr (Or.inl hp)), hc⟩)))
  · exact Or.inr (Or.inr (Or.inr (Or.inl ⟨Or.inr (Or.inr (Or.inr hp)), hc⟩)))
  · exact Or.inr (Or.inr (Or.inr (Or.inr (Or.inl ⟨hp, hc⟩))))
  · exact Or.inr (Or.inr (Or.inr (Or.inr (Or.inr ⟨hp, hc⟩))))

/-- When the loop finishes, `licenseCopyrights` holds the prior entries
followed by one `{...$copyright, draft: $draft}` entry per draft, in loop
order — pushed before the skip test, hence also for skipped drafts. -/
theorem processDrafts_ok_copyrights (env : Env) (f : Bool) :
    ∀ (ds : List DraftInput) (st st' : RunState),
      processDrafts env f st ds = .ok st' →
      st'.copyrights = st.copyrights ++ ds.map (fun d => (d.draftField, d.copyright)) := by
  intro ds
  induction ds with
  | nil =>
    intro st st' h
    cases h
    simp
  | cons d rest ih =>
    intro st st' h
    by_cases hc : skipCond f st d
    · rw [processDrafts_cons_skip env rest hc] at h
      rw [ih (skipState st d) st' h]
      simp
    · cases ho : (env.outcome d.id).isOk
      · rw [processDrafts_cons_err env rest hc ho] at h
        cases h
      · rw [processDrafts_cons_ok env rest hc ho] at h
        rw [ih (stepOkState env st d) st' h]
        simp

/-- Every draft of a finished loop was either skipped or completed. -/
theorem processDrafts_ok_handled (env : Env) (f : Bool) :
    ∀ (ds : List DraftInput) (st st' : RunState),
      processDrafts env f st ds = .ok st' →
      ∀ d ∈ ds, d.id ∈ st'.skipped ∨ d.id ∈ st'.processed := by
  intro ds
  induction ds with
  | nil => intro st st' _ d hd; exact absurd hd (List.not_mem_nil d)
  | cons d0 rest ih =>
    intro st st' hok d hd
    rcases List.mem_cons.mp hd with rfl | hdr
    · by_cases hc : skipCond f st d
      · rw [processDrafts_cons_skip env rest hc] at hok
        have hsup := processDrafts_skipped_superset env f rest (skipState st d) d.id (by simp)
        rw [hok] at hsup
        exact Or.inl (by simpa using hsup)
      · cases ho : (env.outcome d.id).isOk
        · rw [processDrafts_cons_err env rest hc ho] at hok
          simp at hok
        · rw [processDrafts_cons_ok env rest hc ho] at hok
          have hsup := processDrafts_processed_superset env f rest (stepOkState env st d) d.id (by simp)
          rw [hok] at hsup
          exact Or.inr (by simpa using hsup)
    · by_cases hc : skipCond f st d0
      · rw [processDrafts_cons_skip env rest hc] at hok
        exact ih (skipState st d0) st' hok d hdr
      · cases ho : (env.outcome d0.id).isOk
        · rw [processDrafts_cons_err env rest hc ho] at hok
          simp at hok
        · rw [processDrafts_cons_ok env rest hc ho] at hok
          exact ih (stepOkState env st d0) st' hok d hdr

/-! ## Banner and content facts -/

/-- The module file content is the banner followed by the expanded code. -/
theorem modFileContent_eq (m : String) : modFileContent m = bannerText ++ m := rfl

theorem startsWithBanner_modFile (m : String) : startsWithBanner (modFileContent m) :=
  ⟨m, modFileContent_eq m⟩

/-- A banner-prefixed text begins with a slash. -/
theorem startsWithBanner_head {s : String} (h : startsWithBanner s) :
    s.data.head? = some '/' := by
  obtain ⟨rest, rfl⟩ := h
  rfl

/-- The latest alias module is not banner-prefixed: it begins with
`export`. -/
theorem not_startsWithBanner_alias (latest : String) :
    ¬startsWithBanner (latestAliasContent latest) := by
  intro h
  have h1 := startsWithBanner_head h
  rw [show (latestAliasContent latest).data.head? = some 'e' from rfl] at h1
  exact absurd h1 (by decide)

/-- The version module is not banner-prefixed: it begins with `export`. -/
theorem not_startsWithBanner_version (v : String) :
    ¬startsWithBanner (versionFileContent v) := by
  intro h
  have h1 := startsWithBanner_head h
  rw [show (versionFileContent v).data.head? = some 'e' from rfl] at h1
  exact absurd h1 (by decide)

/-- Re-applying the package.json mutation with the same version, latest
draft and draft list changes nothing. -/
theorem updatePackageJson_idem (p : PackageJson) (v latest : String) (ids : List String) :
    updatePackageJson (updatePackageJson p v latest ids) v latest ids =
      updatePackageJson p v latest ids := rfl

@[simp] theorem RunResult.state_ok (st : RunState) : (RunResult.ok st).state = st := rfl

@[simp] theorem RunResult.state_err (e : RunError) (st : RunState) :
    (RunResult.err e st).state = st := rfl

@[simp] theorem RunResult.isOk_ok (st : RunState) : (RunResult.ok st).isOk = true := rfl

@[simp] theorem RunResult.isOk_err (e : RunError) (st : RunState) :
    (RunResult.err e st).isOk = false := rfl

/-- Starting from an empty write log, everything the loop writes is a
pipeline file: a JSON definition or a banner-prefixed module. -/
theorem loop_writes_pipeline_only (env : Env) (f : Bool) (ds : List DraftInput)
    (st0 : RunState) (h0 : st0.writes = []) (p : OutPath) (c : String)
    (hmem : (p, c) ∈ (resState (processDrafts env f st0 ds)).writes) :
    (∃ id, p = OutPath.specJson id) ∨
    (∃ id m, p = OutPath.denoModule id ∧ c = modFileContent m) := by
  rcases processDrafts_writes_shape env f ds st0 p c hmem with h2 | ⟨d, _, h2 | ⟨h2, m, hm⟩⟩
  · rw [h0] at h2
    exact absurd h2 (List.not_mem_nil _)
  · exact Or.inl ⟨d.id, h2⟩
  · exact Or.inr ⟨d.id, m, h2, hm⟩

end JsonSchemaTyped

namespace JsonSchemaTyped

/-! ## The claims -/

/-- **C9**: `compileTypeScript` succeeds exactly when the concatenated
diagnostic list is empty and emission was not skipped; whenever at least
one diagnostic is reported — its category is never consulted, so
warning-only lists are not tolerated — it fails with an error listing every
diagnostic, where each diagnostic with a file carries the file name, the
one-based line/column, and the message. -/
theorem compile_fails_on_any_diagnostic (preEmit emitDiags : List Diagnostic)
    (emitSkipped : Bool) :
    (compileTypeScript preEmit emitDiags emitSkipped = .ok () ↔
      (preEmit ++ emitDiags = [] ∧ emitSkipped = false)) ∧
    (preEmit ++ emitDiags ≠ [] →
      compileTypeScript preEmit emitDiags emitSkipped =
        .error ("TypeScript compilation failed:\n" ++
          String.intercalate "\n" ((preEmit ++ emitDiags).map diagnosticLine))) ∧
    (∀ d ∈ preEmit ++ emitDiags, ∀ fl, d.file = some fl →
      diagnosticLine d = fl.fileName ++ " (" ++ toString (fl.line + 1) ++ "," ++
        toString (fl.character + 1) ++ "): " ++ d.messageText) ∧
    ((∀ d ∈ preEmit ++ emitDiags, d.category = DiagnosticCategory.warning) →
      preEmit ++ emitDiags ≠ [] →
      ∀ u : Unit, compileTypeScript preEmit emitDiags emitSkipped ≠ .ok u) := by
  refine ⟨⟨?_, ?_⟩, ?_, ?_, ?_⟩
  · intro hok
    simp only [compileTypeScript] at hok
    by_cases h : (preEmit ++ emitDiags).length > 0
    · rw [if_pos h] at hok
      exact absurd hok (by simp)
    · have hnil : preEmit ++ emitDiags = [] :=
        List.length_eq_zero.mp (Nat.eq_zero_of_not_pos h)
      rw [if_neg h] at hok
      refine ⟨hnil, ?_⟩
      by_cases hs : emitSkipped = true
      · rw [if_pos hs] at hok
        exact absurd hok (by simp)
      · simpa using hs
  · rintro ⟨h1, h2⟩
    simp [compileTypeScript, h1, h2]
  · intro hne
    simp only [compileTypeScript]
    rw [if_pos (by simpa using List.length_pos.mpr hne)]
  · intro d _ fl hf
    simp [diagnosticLine, hf]
  · intro _ hne u hok
    simp only [compileTypeScript] at hok
    rw [if_pos (by simpa using List.length_pos.mpr hne)] at hok
    exact absurd hok (by simp)

/-- Witness for C9: a single warning diagnostic with a file fails the
compilation with the rendered one-based position, and the empty
diagnostic list with emission succeeds. -/
theorem compile_fails_on_any_diagnostic_witness :
    compileTypeScript [diagW] [] false =
      .error ("TypeScript compilation failed:\n" ++
        String.intercalate "\n" (([diagW] ++ []).map diagnosticLine)) ∧
    diagnosticLine diagW = "foo.ts (2,5): boom" ∧
    compileTypeScript [] [] false = .ok () :=
  ⟨(compile_fails_on_any_diagnostic [diagW] [] false).2.1 (by decide),
    (compile_fails_on_any_diagnostic [diagW] [] false).2.2.1 diagW (by decide)
      { fileName := "foo.ts", line := 1, character := 4 } (by decide) |>.trans (by decide),
    (compile_fails_on_any_diagnostic [] [] false).1.mpr ⟨rfl, rfl⟩⟩

/-- **C7**: when no discovered draft has a numeric identifier prefix, the
run never exits successfully (the `throw new Error("TODO")` fires, or an
earlier draft failure already aborted), and in no aborted state was the
`draft_latest.ts` alias written. -/
theorem no_numeric_draft_aborts (env : Env) (I : BuildInput)
    (h : ∀ d ∈ I.drafts, hasNumericPrefix d.id = false) :
    (∀ st, runBuild env I ≠ .ok st) ∧
    (∀ e st, runBuild env I = .err e st → ∀ c, (OutPath.draftLatest, c) ∉ st.writes) := by
  have hn : latestDraft ((sortDrafts I.drafts).map DraftInput.id) = none := by
    rw [latestDraft_none_iff]
    intro x hx
    obtain ⟨d, hd, rfl⟩ := List.mem_map.mp hx
    exact h d (mem_sortDrafts.mp hd)
  rcases runBuild_cases env I with ⟨stL, latest, hl, hlat, hrun⟩ |
    ⟨stL, hl, hlat, hrun⟩ | ⟨stE, i, hl, hrun⟩
  · rw [hn] at hlat
    exact Option.noConfusion hlat
  · constructor
    · intro st hc
      rw [hrun] at hc
      exact RunResult.noConfusion hc
    · intro e st he c hc
      rw [hrun] at he
      injection he with he1 he2
      subst he2
      simp only [noLatestState, addWrite_writes, List.mem_append, List.mem_singleton] at hc
      rcases hc with hc | hc
      · rcases loop_writes_pipeline_only env I.force (sortDrafts I.drafts) (initState I) rfl
          OutPath.draftLatest c (by rw [hl]; exact hc) with ⟨id, h2⟩ | ⟨id, m, h2, _⟩
        · exact OutPath.noConfusion h2
        · exact OutPath.noConfusion h2
      · exact OutPath.noConfusion (congrArg Prod.fst hc)
  · constructor
    · intro st hc
      rw [hrun] at hc
      exact RunResult.noConfusion hc
    · intro e st he c hc
      rw [hrun] at he
      injection he with he1 he2
      subst he2
      rcases loop_writes_pipeline_only env I.force (sortDrafts I.drafts) (initState I) rfl
        OutPath.draftLatest c (by rw [hl]; exact hc) with ⟨id, h2⟩ | ⟨id, m, h2, _⟩
      · exact OutPath.noConfusion h2
      · exact OutPath.noConfusion h2

/-- Witness for C7: a run whose only draft is `draftX` aborts and never
writes the latest alias. -/
theorem no_numeric_draft_aborts_witness :
    (∀ st, runBuild okEnv inC7 ≠ .ok st) ∧
    (∀ e st, runBuild okEnv inC7 = .err e st →
      ∀ c, (OutPath.draftLatest, c) ∉ st.writes) :=
  no_numeric_draft_aborts okEnv inC7 (by decide)

/-- **C4 counterexample**: with drafts `10` and `9` the orchestrator
selects `9` as latest (the lexicographically last numeric-prefixed
identifier) although `10`'s numeric prefix is the greater number, refuting
"greatest numeric identifier prefix". -/
theorem latest_not_numeric_max_counterexample :
    (runBuild okEnv inC4).isOk = true ∧
    writeContent (runBuild okEnv inC4).state OutPath.draftLatest =
      some (latestAliasContent "9") ∧
    numericPrefixValue "10" = some 10 ∧
    numericPrefixValue "9" = some 9 ∧
    hasNumericPrefix "10" = true ∧
    ¬((10 : Int) ≤ 9) := by decide

/-- **C4 amended**: the "latest" draft is the *lexicographically* last
identifier, in the sorted enumeration, among drafts with a numeric prefix;
non-numeric-prefixed drafts are never selected but are still handled
(skipped or generated) by the loop. -/
theorem latest_is_lex_max_numeric (env : Env) (I : BuildInput) (st : RunState)
    (h : runBuild env I = .ok st) :
    ∃ L, latestDraft ((sortDrafts I.drafts).map DraftInput.id) = some L ∧
      hasNumericPrefix L = true ∧
      (∃ d ∈ I.drafts, d.id = L) ∧
      (∀ d ∈ I.drafts, hasNumericPrefix d.id = true → stringLe d.id L = true) ∧
      (OutPath.draftLatest, latestAliasContent L) ∈ st.writes ∧
      (∀ d ∈ I.drafts, d.id ∈ st.skipped ∨ d.id ∈ st.processed) := by
  rcases runBuild_cases env I with ⟨stL, latest, hl, hlat, hrun⟩ |
    ⟨stL, hl, hlat, hrun⟩ | ⟨stE, i, hl, hrun⟩
  · rw [h] at hrun
    injection hrun with hst
    subst hst
    refine ⟨latest, hlat, (latestDraft_mem hlat).2, ?_, ?_, ?_, ?_⟩
    · obtain ⟨hLmem, _⟩ := latestDraft_mem hlat
      obtain ⟨d, hd, hid⟩ := List.mem_map.mp hLmem
      exact ⟨d, mem_sortDrafts.mp hd, hid⟩
    · intro d hd hp
      exact latestDraft_isMax (sortDrafts_ids_sorted I.drafts) hlat d.id
        (List.mem_map_of_mem DraftInput.id (mem_sortDrafts.mpr hd)) hp
    · simp only [okFinalState_writes, List.mem_append]
      right
      unfold finalWrites
      simp
    · intro d hd
      have hh := processDrafts_ok_handled env I.force (sortDrafts I.drafts)
        (initState I) stL hl d (mem_sortDrafts.mpr hd)
      simpa using hh
  · rw [h] at hrun
    exact RunResult.noConfusion hrun
  · rw [h] at hrun
    exact RunResult.noConfusion hrun

/-- Witness for C4 amended: the concrete `10`/`9` run selects `9`. -/
theorem latest_is_lex_max_numeric_witness :
    ∃ L, latestDraft ((sortDrafts inC4.drafts).map DraftInput.id) = some L ∧
      hasNumericPrefix L = true ∧
      (∃ d ∈ inC4.drafts, d.id = L) ∧
      (∀ d ∈ inC4.drafts, hasNumericPrefix d.id = true → stringLe d.id L = true) ∧
      (OutPath.draftLatest, latestAliasContent L) ∈ (runBuild okEnv inC4).state.writes ∧
      (∀ d ∈ inC4.drafts, d.id ∈ (runBuild okEnv inC4).state.skipped ∨
        d.id ∈ (runBuild okEnv inC4).state.processed) :=
  latest_is_lex_max_numeric okEnv inC4 ((runBuild okEnv inC4).state) (by decide)

/-- **C8 counterexample**: a successful run writes the latest alias module
without the two-line generated-file marker, refuting "every emitted source
module is prefixed with the marker". -/
theorem banner_missing_on_latest_alias_counterexample :
    (runBuild okEnv inC8).isOk = true ∧
    writeContent (runBuild okEnv inC8).state OutPath.draftLatest =
      some (latestAliasContent "7") ∧
    ¬startsWithBanner (latestAliasContent "7") :=
  ⟨by decide, by decide, not_startsWithBanner_alias "7"⟩

/-- **C8 amended**: the per-draft generated modules `draft_<id>.ts` are
always prefixed with the two-line generated-file marker, but the latest
alias module and the version module are emitted without it. -/
theorem banner_on_draft_modules_only (env : Env) (I : BuildInput) :
    (∀ id c, (OutPath.denoModule id, c) ∈ (runBuild env I).state.writes →
      startsWithBanner c) ∧
    (∀ c, (OutPath.draftLatest, c) ∈ (runBuild env I).state.writes →
      ¬startsWithBanner c) ∧
    (∀ c, (OutPath.versionTs, c) ∈ (runBuild env I).state.writes →
      ¬startsWithBanner c) := by
  rcases runBuild_cases env I with ⟨stL, latest, hl, hlat, hrun⟩ |
    ⟨stL, hl, hlat, hrun⟩ | ⟨stE, i, hl, hrun⟩
  · rw [hrun]
    simp only [RunResult.state_ok, okFinalState_writes]
    refine ⟨?_, ?_, ?_⟩
    · intro id c hmem
      rcases List.mem_append.mp hmem with hmem | hmem
      · rcases List.mem_append.mp hmem with hmem | hmem
        · rcases loop_writes_pipeline_only env I.force (sortDrafts I.drafts) (initState I) rfl
            (OutPath.denoModule id) c (by rw [hl]; exact hmem) with ⟨id2, h2⟩ | ⟨id2, m, _, hm⟩
          · exact OutPath.noConfusion h2
          · exact hm ▸ startsWithBanner_modFile m
        · exact OutPath.noConfusion (congrArg Prod.fst (List.mem_singleton.mp hmem))
      · rcases mem_finalWrites hmem with ⟨h2, _⟩ | ⟨h2, _⟩ | ⟨h2, _⟩ | ⟨h2, _⟩ | ⟨h2, _⟩ | ⟨h2, _⟩
        · exact OutPath.noConfusion h2
        · exact OutPath.noConfusion h2
        · exact OutPath.noConfusion h2
        · rcases h2 with h2 | h2 | h2 | h2 <;> exact OutPath.noConfusion h2
        · exact OutPath.noConfusion h2
        · exact OutPath.noConfusion h2
    · intro c hmem
      rcases List.mem_append.mp hmem with hmem | hmem
      · rcases List.mem_append.mp hmem with hmem | hmem
        · rcases loop_writes_pipeline_only env I.force (sortDrafts I.drafts) (initState I) rfl
            OutPath.draftLatest c (by rw [hl]; exact hmem) with ⟨id2, h2⟩ | ⟨id2, m, h2, _⟩
          · exact OutPath.noConfusion h2
          · exact OutPath.noConfusion h2
        · exact OutPath.noConfusion (congrArg Prod.fst (List.mem_singleton.mp hmem))
      · rcases mem_finalWrites hmem with ⟨_, hc⟩ | ⟨h2, _⟩ | ⟨h2, _⟩ | ⟨h2, _⟩ | ⟨h2, _⟩ | ⟨h2, _⟩
        · exact hc ▸ not_startsWithBanner_alias latest
        · exact OutPath.noConfusion h2
        · exact OutPath.noConfusion h2
        · rcases h2 with h2 | h2 | h2 | h2 <;> exact OutPath.noConfusion h2
        · exact OutPath.noConfusion h2
        · exact OutPath.noConfusion h2
    · intro c hmem
      rcases List.mem_append.mp hmem with hmem | hmem
      · rcases List.mem_append.mp hmem with hmem | hmem
        · rcases loop_writes_pipeline_only env I.force (sortDrafts I.drafts) (initState I) rfl
            OutPath.versionTs c (by rw [hl]; exact hmem) with ⟨id2, h2⟩ | ⟨id2, m, h2, _⟩
          · exact OutPath.noConfusion h2
          · exact OutPath.noConfusion h2
        · exact OutPath.noConfusion (congrArg Prod.fst (List.mem_singleton.mp hmem))
      · rcases mem_finalWrites hmem with ⟨h2, _⟩ | ⟨h2, _⟩ | ⟨h2, _⟩ | ⟨h2, _⟩ | ⟨h2, _⟩ | ⟨_, hc⟩
        · exact OutPath.noConfusion h2
        · exact OutPath.noConfusion h2
        · exact OutPath.noConfusion h2
        · rcases h2 with h2 | h2 | h2 | h2 <;> exact OutPath.noConfusion h2
        · exact OutPath.noConfusion h2
        · exact hc ▸ not_startsWithBanner_version I.version
  · rw [hrun]
    simp only [RunResult.state_err, noLatestState, addWrite_writes]
    refine ⟨?_, ?_, ?_⟩
    · intro id c hmem
      rcases List.mem_append.mp hmem with hmem | hmem
      · rcases loop_writes_pipeline_only env I.force (sortDrafts I.drafts) (initState I) rfl
          (OutPath.denoModule id) c (by rw [hl]; exact hmem) with ⟨id2, h2⟩ | ⟨id2, m, _, hm⟩
        · exact OutPath.noConfusion h2
        · exact hm ▸ startsWithBanner_modFile m
      · exact OutPath.noConfusion (congrArg Prod.fst (List.mem_singleton.mp hmem))
    · intro c hmem
      rcases List.mem_append.mp hmem with hmem | hmem
      · rcases loop_writes_pipeline_only env I.force (sortDrafts I.drafts) (initState I) rfl
          OutPath.draftLatest c (by rw [hl]; exact hmem) with ⟨id2, h2⟩ | ⟨id2, m, h2, _⟩
        · exact OutPath.noConfusion h2
        · exact OutPath.noConfusion h2
      · exact OutPath.noConfusion (congrArg Prod.fst (List.mem_singleton.mp hmem))
    · intro c hmem
      rcases List.mem_append.mp hmem with hmem | hmem
      · rcases loop_writes_pipeline_only env I.force (sortDrafts I.drafts) (initState I) rfl
          OutPath.versionTs c (by rw [hl]; exact hmem) with ⟨id2, h2⟩ | ⟨id2, m, h2, _⟩
        · exact OutPath.noConfusion h2
        · exact OutPath.noConfusion h2
      · exact OutPath.noConfusion (congrArg Prod.fst (List.mem_singleton.mp hmem))
  · rw [hrun]
    simp only [RunResult.state_err]
    refine ⟨?_, ?_, ?_⟩
    · intro id c hmem
      rcases loop_writes_pipeline_only env I.force (sortDrafts I.drafts) (initState I) rfl
        (OutPath.denoModule id) c (by rw [hl]; exact hmem) with ⟨id2, h2⟩ | ⟨id2, m, _, hm⟩
      · exact OutPath.noConfusion h2
      · exact hm ▸ startsWithBanner_modFile m
    · intro c hmem
      rcases loop_writes_pipeline_only env I.force (sortDrafts I.drafts) (initState I) rfl
        OutPath.draftLatest c (by rw [hl]; exact hmem) with ⟨id2, h2⟩ | ⟨id2, m, h2, _⟩
      · exact OutPath.noConfusion h2
      · exact OutPath.noConfusion h2
    · intro c hmem
      rcases loop_writes_pipeline_only env I.force (sortDrafts I.drafts) (initState I) rfl
        OutPath.versionTs c (by rw [hl]; exact hmem) with ⟨id2, h2⟩ | ⟨id2, m, h2, _⟩
      · exact OutPath.noConfusion h2
      · exact OutPath.noConfusion h2

/-- Witness for C8 amended: in the concrete one-draft run, the written
draft module is banner-prefixed and the written latest alias is not. -/
theorem banner_on_draft_modules_only_witness :
    startsWithBanner (modFileContent "M") ∧
    ¬startsWithBanner (latestAliasContent "7") :=
  ⟨(banner_on_draft_modules_only okEnv inC8).1 "7" (modFileContent "M") (by decide),
    (banner_on_draft_modules_only okEnv inC8).2.1 (latestAliasContent "7") (by decide)⟩

/-- **C2**: in a completed run a draft is skipped exactly when the force
flag is unset and the prior ledger holds its path's entry equal to its
current digest; equivalently it is processed exactly when the flag is set,
no entry exists, or the entry differs. -/
theorem skip_iff_digest_match_not_forced (env : Env) (I : BuildInput) (st : RunState)
    (hnd : (I.drafts.map DraftInput.id).Nodup)
    (h : runBuild env I = .ok st) :
    ∀ d ∈ I.drafts,
      (d.id ∈ st.skipped ↔
        (I.force = false ∧ Ledger.lookup I.checksums0 (draftKey d.id) = some d.digest)) ∧
      (d.id ∈ st.processed ↔
        (I.force = true ∨ Ledger.lookup I.checksums0 (draftKey d.id) ≠ some d.digest)) := by
  rcases runBuild_cases env I with ⟨stL, latest, hl, hlat, hrun⟩ |
    ⟨stL, hl, hlat, hrun⟩ | ⟨stE, i, hl, hrun⟩
  · rw [h] at hrun
    injection hrun with hst
    subst hst
    intro d hd
    have hstat := processDrafts_ok_status env I.force (sortDrafts I.drafts) (initState I) stL hl
      (sortDrafts_ids_nodup hnd) d (mem_sortDrafts.mpr hd)
    constructor
    · simp only [okFinalState_skipped]
      rw [hstat.1]
      cases hIf : I.force <;> simp [skipCond, initState, hIf, and_comm]
    · simp only [okFinalState_processed]
      rw [hstat.2]
      cases hIf : I.force <;> simp [skipCond, initState, hIf]
  · rw [h] at hrun
    exact RunResult.noConfusion hrun
  · rw [h] at hrun
    exact RunResult.noConfusion hrun

/-- Witness for C2: in the concrete run, draft `04` (matching entry, no
force) is skipped and draft `07` (stale entry) is processed. -/
theorem skip_iff_digest_match_not_forced_witness :
    ((mkDraft "04" "h4" 2020).id ∈ (runBuild okEnv inC2).state.skipped ↔
      (inC2.force = false ∧
        Ledger.lookup inC2.checksums0 (draftKey (mkDraft "04" "h4" 2020).id) =
          some (mkDraft "04" "h4" 2020).digest)) ∧
    ((mkDraft "07" "h7" 2021).id ∈ (runBuild okEnv inC2).state.processed ↔
      (inC2.force = true ∨
        Ledger.lookup inC2.checksums0 (draftKey (mkDraft "07" "h7" 2021).id) ≠
          some (mkDraft "07" "h7" 2021).digest)) :=
  ⟨(skip_iff_digest_match_not_forced okEnv inC2 ((runBuild okEnv inC2).state)
      (by decide) (by decide) (mkDraft "04" "h4" 2020) (by decide)).1,
    (skip_iff_digest_match_not_forced okEnv inC2 ((runBuild okEnv inC2).state)
      (by decide) (by decide) (mkDraft "07" "h7" 2021) (by decide)).2⟩

/-- **C1**: the persisted ledger is only committed by a run in which every
processed draft completed — a draft failure aborts the script before the
`checksums.json` write, so the file keeps its prior content; a skipped
draft's entry in the written ledger equals its prior value; and (without
`--force`) the failing draft's prior entry differed from its digest, so an
identical next run processes that draft again. -/
theorem ledger_commit_only_on_success (env : Env) (I : BuildInput)
    (hnd : (I.drafts.map DraftInput.id).Nodup)
    (hnk : (Ledger.keys I.checksums0).Nodup) :
    (∀ i st, runBuild env I = .err (.draftFailure i) st →
      ∀ c, (OutPath.checksumsFile, c) ∉ st.writes) ∧
    (∀ st, runBuild env I = .ok st → ∀ d ∈ I.drafts, d.id ∈ st.skipped →
      Ledger.lookup (sortLedger st.checksums) (draftKey d.id) =
        Ledger.lookup I.checksums0 (draftKey d.id)) ∧
    (∀ i st, runBuild env I = .err (.draftFailure i) st → I.force = false →
      ∀ d ∈ I.drafts, d.id = i →
        Ledger.lookup I.checksums0 (draftKey d.id) ≠ some d.digest) := by
  refine ⟨?_, ?_, ?_⟩
  · intro i st he c hc
    rcases runBuild_cases env I with ⟨stL, latest, hl, hlat, hrun⟩ |
      ⟨stL, hl, hlat, hrun⟩ | ⟨stE, i2, hl, hrun⟩
    · rw [hrun] at he
      exact RunResult.noConfusion he
    · rw [hrun] at he
      injection he with he1 he2
      exact RunError.noConfusion he1
    · rw [hrun] at he
      injection he with he1 he2
      subst he2
      rcases loop_writes_pipeline_only env I.force (sortDrafts I.drafts) (initState I) rfl
        OutPath.checksumsFile c (by rw [hl]; exact hc) with ⟨id2, h2⟩ | ⟨id2, m, h2, _⟩
      · exact OutPath.noConfusion h2
      · exact OutPath.noConfusion h2
  · intro st hok d hd hskip
    rcases runBuild_cases env I with ⟨stL, latest, hl, hlat, hrun⟩ |
      ⟨stL, hl, hlat, hrun⟩ | ⟨stE, i2, hl, hrun⟩
    · rw [hok] at hrun
      injection hrun with hst
      subst hst
      have hnd2 := sortDrafts_ids_nodup hnd
      have hstat := processDrafts_ok_status env I.force (sortDrafts I.drafts) (initState I)
        stL hl hnd2 d (mem_sortDrafts.mpr hd)
      have hcond : skipCond I.force (initState I) d := by
        rcases hstat.1.mp (by simpa using hskip) with h2 | h2
        · exact absurd h2 (by simp [initState])
        · exact h2
      have hkeys : (Ledger.keys stL.checksums).Nodup := by
        have hp := processDrafts_nodup_keys env I.force (sortDrafts I.drafts) (initState I)
          (by simpa [initState] using hnk)
        rw [hl] at hp
        simpa using hp
      simp only [okFinalState_checksums]
      rw [lookup_sortLedger stL.checksums hkeys]
      rw [processDrafts_ok_lookup env I.force (sortDrafts I.drafts) (initState I) stL hl hnd2 d
        (mem_sortDrafts.mpr hd)]
      exact hcond.1.symm
    · rw [hok] at hrun
      exact RunResult.noConfusion hrun
    · rw [hok] at hrun
      exact RunResult.noConfusion hrun
  · intro i st he hf d hd hdi
    rcases runBuild_cases env I with ⟨stL, latest, hl, hlat, hrun⟩ |
      ⟨stL, hl, hlat, hrun⟩ | ⟨stE, i2, hl, hrun⟩
    · rw [hrun] at he
      exact RunResult.noConfusion he
    · rw [hrun] at he
      injection he with he1 he2
      exact RunError.noConfusion he1
    · rw [hrun] at he
      injection he with he1 he2
      injection he1 with hei
      rw [hf] at hl
      exact processDrafts_err_digest_ne env (sortDrafts I.drafts) (initState I) stE i2 hl
        (sortDrafts_ids_nodup hnd) d (mem_sortDrafts.mpr hd) (hdi.trans hei.symm)

/-- Witness for C1: the concrete run fails at draft `b`; no ledger file is
written, and `b`'s prior entry (absent) differs from its digest. -/
theorem ledger_commit_only_on_success_witness :
    (∀ i st, runBuild failBEnv inC1 = .err (.draftFailure i) st →
      ∀ c, (OutPath.checksumsFile, c) ∉ st.writes) ∧
    (∀ st, runBuild failBEnv inC1 = .ok st → ∀ d ∈ inC1.drafts, d.id ∈ st.skipped →
      Ledger.lookup (sortLedger st.checksums) (draftKey d.id) =
        Ledger.lookup inC1.checksums0 (draftKey d.id)) ∧
    (∀ i st, runBuild failBEnv inC1 = .err (.draftFailure i) st → inC1.force = false →
      ∀ d ∈ inC1.drafts, d.id = i →
        Ledger.lookup inC1.checksums0 (draftKey d.id) ≠ some d.digest) :=
  ledger_commit_only_on_success failBEnv inC1 (by decide) (by decide)

/-- **C6**: a completed run rewrites `checksums.json` from the full
in-memory ledger sorted lexicographically by key; the written key set
contains every prior key (no pruning), and entries for paths unrelated to
the run's drafts keep their prior values. -/
theorem ledger_persisted_sorted_superset (env : Env) (I : BuildInput)
    (hnk : (Ledger.keys I.checksums0).Nodup) :
    ∀ st, runBuild env I = .ok st →
      (OutPath.checksumsFile, serializeLedger (sortLedger st.checksums)) ∈ st.writes ∧
      List.Sorted entryLe (sortLedger st.checksums) ∧
      (∀ k ∈ Ledger.keys I.checksums0, k ∈ Ledger.keys (sortLedger st.checksums)) ∧
      (∀ k, (∀ d ∈ I.drafts, k ≠ draftKey d.id) →
        Ledger.lookup (sortLedger st.checksums) k = Ledger.lookup I.checksums0 k) := by
  intro st hok
  rcases runBuild_cases env I with ⟨stL, latest, hl, hlat, hrun⟩ |
    ⟨stL, hl, hlat, hrun⟩ | ⟨stE, i, hl, hrun⟩
  · rw [hok] at hrun
    injection hrun with hst
    subst hst
    refine ⟨?_, sortLedger_sorted _, ?_, ?_⟩
    · simp only [okFinalState_checksums, okFinalState_writes, List.mem_append]
      left
      right
      exact List.mem_singleton.mpr rfl
    · intro k hk
      have hsup := processDrafts_keys_superset env I.force (sortDrafts I.drafts) (initState I)
        k (by simpa [initState] using hk)
      rw [hl] at hsup
      simp only [resState_ok] at hsup
      simp only [okFinalState_checksums]
      exact ((sortLedger_perm stL.checksums).map Prod.fst).mem_iff.mpr hsup
    · intro k hkd
      have hkeys : (Ledger.keys stL.checksums).Nodup := by
        have hp := processDrafts_nodup_keys env I.force (sortDrafts I.drafts) (initState I)
          (by simpa [initState] using hnk)
        rw [hl] at hp
        simpa using hp
      simp only [okFinalState_checksums]
      rw [lookup_sortLedger stL.checksums hkeys]
      have hu := processDrafts_lookup_unrelated env I.force (sortDrafts I.drafts) (initState I)
        k (fun d hd => hkd d (mem_sortDrafts.mp hd))
      rw [hl] at hu
      simpa [initState] using hu
  · rw [hok] at hrun
    exact RunResult.noConfusion hrun
  · rw [hok] at hrun
    exact RunResult.noConfusion hrun

/-- Witness for C6: the concrete run keeps the unrelated `zzz` entry and
adds the processed draft's key, written sorted. -/
theorem ledger_persisted_sorted_superset_witness :
    (OutPath.checksumsFile,
        serializeLedger (sortLedger (runBuild okEnv inC6).state.checksums)) ∈
      (runBuild okEnv inC6).state.writes ∧
    List.Sorted entryLe (sortLedger (runBuild okEnv inC6).state.checksums) ∧
    (∀ k ∈ Ledger.keys inC6.checksums0,
      k ∈ Ledger.keys (sortLedger (runBuild okEnv inC6).state.checksums)) ∧
    (∀ k, (∀ d ∈ inC6.drafts, k ≠ draftKey d.id) →
      Ledger.lookup (sortLedger (runBuild okEnv inC6).state.checksums) k =
        Ledger.lookup inC6.checksums0 k) :=
  ledger_persisted_sorted_superset okEnv inC6 (by decide)
    ((runBuild okEnv inC6).state) (by decide)

/-- **C10**: in every completed run the LICENSE text is built from a
copyright block holding one rendered line per discovered draft — the
entries are pushed before the skip test, so skipped drafts are included —
sorted by ascending year with ties broken by the draft identifier. -/
theorem license_includes_all_drafts_sorted (env : Env) (I : BuildInput) :
    ∀ st, runBuild env I = .ok st →
      (OutPath.licenseRoot,
        env.formatMarkdownFull (substituteLicense I.licenseTemplate I.year
          (copyrightBlock st.copyrights))) ∈ st.writes ∧
      st.copyrights = (sortDrafts I.drafts).map (fun d => (d.draftField, d.copyright)) ∧
      (∀ d ∈ I.drafts, renderCopyright d.draftField d.copyright ∈
        (sortCopyrights st.copyrights).map (fun p => renderCopyright p.1 p.2)) ∧
      List.Sorted copyrightLe (sortCopyrights st.copyrights) ∧
      copyrightBlock st.copyrights =
        String.intercalate "\n\n"
          ((sortCopyrights st.copyrights).map (fun p => renderCopyright p.1 p.2)) := by
  intro st hok
  rcases runBuild_cases env I with ⟨stL, latest, hl, hlat, hrun⟩ |
    ⟨stL, hl, hlat, hrun⟩ | ⟨stE, i, hl, hrun⟩
  · rw [hok] at hrun
    injection hrun with hst
    subst hst
    have hcp := processDrafts_ok_copyrights env I.force (sortDrafts I.drafts) (initState I) stL hl
    have hcp2 : stL.copyrights =
        (sortDrafts I.drafts).map (fun d => (d.draftField, d.copyright)) := by
      simpa [initState] using hcp
    refine ⟨?_, by simpa using hcp2, ?_, List.sorted_insertionSort copyrightLe _, rfl⟩
    · simp only [okFinalState_copyrights, okFinalState_writes, List.mem_append]
      right
      unfold finalWrites
      simp
    · intro d hd
      have hmem : (d.draftField, d.copyright) ∈ stL.copyrights := by
        rw [hcp2]
        exact List.mem_map_of_mem _ (mem_sortDrafts.mpr hd)
      have hmem2 : (d.draftField, d.copyright) ∈ sortCopyrights stL.copyrights :=
        (List.perm_insertionSort copyrightLe stL.copyrights).mem_iff.mpr hmem
      simpa using List.mem_map_of_mem (fun p => renderCopyright p.1 p.2) hmem2
  · rw [hok] at hrun
    exact RunResult.noConfusion hrun
  · rw [hok] at hrun
    exact RunResult.noConfusion hrun

/-- Witness for C10: the concrete run includes both the processed 2019
draft and the skipped 2018 draft, the 2018 line first. -/
theorem license_includes_all_drafts_sorted_witness :
    (OutPath.licenseRoot,
      okEnv.formatMarkdownFull (substituteLicense inC10.licenseTemplate inC10.year
        (copyrightBlock (runBuild okEnv inC10).state.copyrights))) ∈
      (runBuild okEnv inC10).state.writes ∧
    (runBuild okEnv inC10).state.copyrights =
      (sortDrafts inC10.drafts).map (fun d => (d.draftField, d.copyright)) ∧
    (∀ d ∈ inC10.drafts, renderCopyright d.draftField d.copyright ∈
      (sortCopyrights (runBuild okEnv inC10).state.copyrights).map
        (fun p => renderCopyright p.1 p.2)) ∧
    List.Sorted copyrightLe (sortCopyrights (runBuild okEnv inC10).state.copyrights) ∧
    copyrightBlock (runBuild okEnv inC10).state.copyrights =
      String.intercalate "\n\n"
        ((sortCopyrights (runBuild okEnv inC10).state.copyrights).map
          (fun p => renderCopyright p.1 p.2)) :=
  license_includes_all_drafts_sorted okEnv inC10 ((runBuild okEnv inC10).state) (by decide)

/-- **C3 counterexample**: with two drafts, a failure in the first draft's
pipeline aborts the whole script — the second, well-formed draft is neither
skipped nor processed and none of its files is written — refuting "every
subsequent draft is still processed to completion". -/
theorem draft_failure_not_isolated_counterexample :
    (runBuild failAEnv inC3).runError = some (.draftFailure "a") ∧
    "b" ∉ (runBuild failAEnv inC3).state.processed ∧
    "b" ∉ (runBuild failAEnv inC3).state.skipped ∧
    writeContent (runBuild failAEnv inC3).state (OutPath.denoModule "b") = none := by
  decide

/-- **C3 amended**: a failure in one draft's pipeline aborts the entire
run; the drafts after the failing one in the sorted enumeration are not
reached — they are neither skipped nor completed, and none of their files
is written. -/
theorem draft_failure_aborts_run (env : Env) (I : BuildInput) (i : String) (st : RunState)
    (hnd : (I.drafts.map DraftInput.id).Nodup)
    (h : runBuild env I = .err (.draftFailure i) st) :
    ∃ pre dfail post, sortDrafts I.drafts = pre ++ dfail :: post ∧ dfail.id = i ∧
      ∀ d ∈ post, d.id ∉ st.processed ∧ d.id ∉ st.skipped ∧
        ∀ c, (OutPath.specJson d.id, c) ∉ st.writes ∧
          (OutPath.denoModule d.id, c) ∉ st.writes := by
  rcases runBuild_cases env I with ⟨stL, latest, hl, hlat, hrun⟩ |
    ⟨stL, hl, hlat, hrun⟩ | ⟨stE, i2, hl, hrun⟩
  · rw [h] at hrun
    exact RunResult.noConfusion hrun
  · rw [h] at hrun
    injection hrun with he1 he2
    exact RunError.noConfusion he1
  · rw [h] at hrun
    injection hrun with he1 he2
    injection he1 with hei
    subst he2
    obtain ⟨pre, dfail, post, heq, hid, hsk, hpr, hwr⟩ :=
      processDrafts_err_decomp env I.force (sortDrafts I.drafts) (initState I) st i2 hl
    refine ⟨pre, dfail, post, heq, hid.trans hei.symm, ?_⟩
    have hnd2 := sortDrafts_ids_nodup hnd
    rw [heq, List.map_append, List.map_cons] at hnd2
    have hnd3 := List.nodup_append.mp hnd2
    intro d hdpost
    have hdmem : d.id ∈ List.map DraftInput.id post := List.mem_map_of_mem _ hdpost
    have hne_pre : d.id ∉ pre.map DraftInput.id := by
      intro hc
      exact hnd3.2.2 hc (List.mem_cons_of_mem _ hdmem)
    have hne_dfail : d.id ≠ dfail.id := by
      intro hc
      exact (List.nodup_cons.mp hnd3.2.1).1 (hc ▸ hdmem)
    refine ⟨?_, ?_, ?_⟩
    · intro hc
      rcases hpr d.id hc with h2 | h2
      · exact absurd h2 (by simp [initState])
      · exact hne_pre h2
    · intro hc
      rcases hsk d.id hc with h2 | h2
      · exact absurd h2 (by simp [initState])
      · exact hne_pre h2
    · intro c
      constructor
      · intro hc
        rcases hwr _ _ hc with h2 | ⟨e, he, h3 | h3⟩
        · exact absurd h2 (by simp [initState])
        · injection h3 with h4
          rcases he with he | he
          · exact hne_pre (h4 ▸ List.mem_map_of_mem DraftInput.id he)
          · exact hne_dfail (he ▸ h4)
        · exact OutPath.noConfusion h3
      · intro hc
        rcases hwr _ _ hc with h2 | ⟨e, he, h3 | h3⟩
        · exact absurd h2 (by simp [initState])
        · exact OutPath.noConfusion h3
        · injection h3 with h4
          rcases he with he | he
          · exact hne_pre (h4 ▸ List.mem_map_of_mem DraftInput.id he)
          · exact hne_dfail (he ▸ h4)

/-- Witness for C3 amended: in the concrete failing run, the sorted drafts
split at `a` and `b` is untouched. -/
theorem draft_failure_aborts_run_witness :
    ∃ pre dfail post,
      sortDrafts inC3.drafts = pre ++ dfail :: post ∧ dfail.id = "a" ∧
      ∀ d ∈ post, d.id ∉ (runBuild failAEnv inC3).state.processed ∧
        d.id ∉ (runBuild failAEnv inC3).state.skipped ∧
        ∀ c, (OutPath.specJson d.id, c) ∉ (runBuild failAEnv inC3).state.writes ∧
          (OutPath.denoModule d.id, c) ∉ (runBuild failAEnv inC3).state.writes :=
  draft_failure_aborts_run failAEnv inC3 "a" ((runBuild failAEnv inC3).state)
    (by decide) (by decide)

/-- **C5 counterexample**: a run satisfying the claim's hypotheses (every
digest matches its ledger entry, force unset) processes zero drafts but
still rewrites the LICENSE with the current year, so a run in 2025 leaves
different bytes than the prior 2024 state — refuting "all output files
byte-identical to their prior state". -/
theorem unchanged_run_not_byte_identical_counterexample :
    inC5b.force = false ∧
    Ledger.lookup inC5b.checksums0 (draftKey "7") = some "h7" ∧
    (runBuild okEnv inC5a).isOk = true ∧
    (runBuild okEnv inC5b).isOk = true ∧
    (runBuild okEnv inC5b).state.processed = [] ∧
    writeContent (runBuild okEnv inC5a).state OutPath.licenseRoot ≠
      writeContent (runBuild okEnv inC5b).state OutPath.licenseRoot := by
  decide

/-- **C5 amended**: when every draft's digest matches its ledger entry and
the force flag is unset — and the current year, templates, version and
collaborators are unchanged since the prior run, whose outputs are the
prior state — the run processes zero drafts, writes no per-draft file, and
every file it writes carries bytes identical to the prior run's write.  The
year condition cannot be dropped: the LICENSE embeds the current year. -/
theorem unchanged_run_rewrites_same_bytes (env : Env) (I I2 : BuildInput) (st1 : RunState)
    (hnd : (I.drafts.map DraftInput.id).Nodup)
    (hnk : (Ledger.keys I.checksums0).Nodup)
    (h1 : runBuild env I = .ok st1)
    (hdr : I2.drafts = I.drafts)
    (hcs : I2.checksums0 = sortLedger st1.checksums)
    (hf : I2.force = false)
    (ht1 : I2.readmeDenoTemplate = I.readmeDenoTemplate)
    (ht2 : I2.readmeNodeTemplate = I.readmeNodeTemplate)
    (ht3 : I2.licenseTemplate = I.licenseTemplate)
    (hv : I2.version = I.version)
    (hy : I2.year = I.year)
    (hpk : I2.packageJson0 = updatePackageJson I.packageJson0 I.version (runLatest I)
      ((sortDrafts I.drafts).map DraftInput.id)) :
    (runBuild env I2).isOk = true ∧
    (runBuild env I2).state.processed = [] ∧
    (∀ id c, (OutPath.specJson id, c) ∉ (runBuild env I2).state.writes ∧
      (OutPath.denoModule id, c) ∉ (runBuild env I2).state.writes) ∧
    (∀ pc ∈ (runBuild env I2).state.writes, pc ∈ st1.writes) := by
  rcases runBuild_cases env I with ⟨stL, latest, hl, hlat, hrun⟩ |
    ⟨stL, hl, hlat, hrun⟩ | ⟨stE, i, hl, hrun⟩
  · rw [h1] at hrun
    injection hrun with hst
    subst hst
    have hLrun : runLatest I = latest := by
      unfold runLatest
      rw [hlat]
      rfl
    have hnd2 := sortDrafts_ids_nodup hnd
    have hkeysL : (Ledger.keys stL.checksums).Nodup := by
      have hp := processDrafts_nodup_keys env I.force (sortDrafts I.drafts) (initState I)
        (by simpa [initState] using hnk)
      rw [hl] at hp
      simpa using hp
    have hds : sortDrafts I2.drafts = sortDrafts I.drafts := by rw [hdr]
    have hall : ∀ d ∈ sortDrafts I2.drafts,
        Ledger.lookup (initState I2).checksums (draftKey d.id) = some d.digest := by
      intro d hd
      rw [hds] at hd
      have hfin := processDrafts_ok_lookup env I.force (sortDrafts I.drafts) (initState I)
        stL hl hnd2 d hd
      show Ledger.lookup I2.checksums0 (draftKey d.id) = some d.digest
      rw [hcs]
      simp only [okFinalState_checksums]
      rw [lookup_sortLedger stL.checksums hkeysL]
      exact hfin
    have hloop2 : processDrafts env I2.force (initState I2) (sortDrafts I2.drafts) = .ok
        { initState I2 with
          copyrights := (initState I2).copyrights ++
            (sortDrafts I2.drafts).map (fun d => (d.draftField, d.copyright)),
          skipped := (initState I2).skipped ++ (sortDrafts I2.drafts).map DraftInput.id } := by
      rw [hf]
      exact processDrafts_all_skip env (sortDrafts I2.drafts) (initState I2) hall
    have hlat2 : latestDraft ((sortDrafts I2.drafts).map DraftInput.id) = some latest := by
      rw [hds]
      exact hlat
    have hrun2 := runBuild_eq_ok env I2 _ latest hloop2 hlat2
    rw [hrun2]
    have hcpL := processDrafts_ok_copyrights env I.force (sortDrafts I.drafts) (initState I) stL hl
    have hcps : ((initState I2).copyrights ++
        (sortDrafts I2.drafts).map (fun d => (d.draftField, d.copyright))) = stL.copyrights := by
      rw [hcpL, hds]
      simp [initState]
    have hck : I2.checksums0 = sortLedger stL.checksums := by
      rw [hcs]
      simp only [okFinalState_checksums]
    refine ⟨rfl, by simp [initState], ?_, ?_⟩
    · intro id c
      constructor
      · intro hc
        simp only [RunResult.state_ok, okFinalState_writes, List.mem_append] at hc
        rcases hc with (hc | hc) | hc
        · exact absurd hc (by simp [initState])
        · exact OutPath.noConfusion (congrArg Prod.fst (List.mem_singleton.mp hc))
        · rcases mem_finalWrites hc with ⟨h2, _⟩ | ⟨h2, _⟩ | ⟨h2, _⟩ | ⟨h2, _⟩ | ⟨h2, _⟩ | ⟨h2, _⟩
          · exact OutPath.noConfusion h2
          · exact OutPath.noConfusion h2
          · exact OutPath.noConfusion h2
          · rcases h2 with h2 | h2 | h2 | h2 <;> exact OutPath.noConfusion h2
          · exact OutPath.noConfusion h2
          · exact OutPath.noConfusion h2
      · intro hc
        simp only [RunResult.state_ok, okFinalState_writes, List.mem_append] at hc
        rcases hc with (hc | hc) | hc
        · exact absurd hc (by simp [initState])
        · exact OutPath.noConfusion (congrArg Prod.fst (List.mem_singleton.mp hc))
        · rcases mem_finalWrites hc with ⟨h2, _⟩ | ⟨h2, _⟩ | ⟨h2, _⟩ | ⟨h2, _⟩ | ⟨h2, _⟩ | ⟨h2, _⟩
          · exact OutPath.noConfusion h2
          · exact OutPath.noConfusion h2
          · exact OutPath.noConfusion h2
          · rcases h2 with h2 | h2 | h2 | h2 <;> exact OutPath.noConfusion h2
          · exact OutPath.noConfusion h2
          · exact OutPath.noConfusion h2
    · intro pc hpc
      simp only [RunResult.state_ok, okFinalState_writes, List.mem_append] at hpc
      rcases hpc with (hpc | hpc) | hpc
      · exact absurd hpc (by simp [initState])
      · rw [List.mem_singleton] at hpc
        subst hpc
        simp only [okFinalState_writes, List.mem_append]
        left
        right
        rw [List.mem_singleton]
        show (OutPath.checksumsFile,
          serializeLedger (sortLedger I2.checksums0)) =
          (OutPath.checksumsFile, serializeLedger (sortLedger stL.checksums))
        rw [hck, sortLedger_idem]
      · simp only [okFinalState_writes, List.mem_append]
        right
        have hfw : finalWrites env I2 ((sortDrafts I2.drafts).map DraftInput.id) latest
            ((initState I2).copyrights ++
              (sortDrafts I2.drafts).map (fun d => (d.draftField, d.copyright)))
            = finalWrites env I ((sortDrafts I.drafts).map DraftInput.id) latest
              stL.copyrights := by
          rw [hcps, hds]
          unfold finalWrites
          rw [ht1, ht2, ht3, hv, hy, hpk, hLrun, updatePackageJson_idem]
        rw [hfw] at hpc
        exact hpc
  · rw [h1] at hrun
    exact RunResult.noConfusion hrun
  · rw [h1] at hrun
    exact RunResult.noConfusion hrun

/-- Witness for C5 amended: the concrete first run processes draft `7`;
the follow-up run over the files it wrote skips everything and rewrites
identical bytes. -/
theorem unchanged_run_rewrites_same_bytes_witness :
    (runBuild okEnv inC5w2).isOk = true ∧
    (runBuild okEnv inC5w2).state.processed = [] ∧
    (∀ id c, (OutPath.specJson id, c) ∉ (runBuild okEnv inC5w2).state.writes ∧
      (OutPath.denoModule id, c) ∉ (runBuild okEnv inC5w2).state.writes) ∧
    (∀ pc ∈ (runBuild okEnv inC5w2).state.writes, pc ∈ (runBuild okEnv inC5w).state.writes) :=
  unchanged_run_rewrites_same_bytes okEnv inC5w inC5w2 ((runBuild okEnv inC5w).state)
    (by decide) (by decide) (by decide) (by decide) (by decide) (by decide)
    (by decide) (by decide) (by decide) (by decide) (by decide) (by decide)

end JsonSchemaTyped
